import Mathlib

/-!
Simple_FTP: frame codec, server session and client transfer commands

A shallow embedding of `Server/stream.c` (`readn`, `writen`), of the command
loop of `Server/myftpd.c` (`serveClient`, `readDirFiles`, `getFile`, `putFile`),
of `Client/myftp.c` (the argument handling of `main`, `serverCommands`,
`getFile`, `sendFile`) and of `Client/token.c` (`tokenise`).

Conventions of the embedding.

* A `char` is its unsigned value, a natural number; a `char` array is a list.
* A descriptor (`Fd`) carries the bytes still to be read, the bytes written so
  far and, for each direction, a schedule with the outcome of the successive
  `read(2)` / `write(2)` calls, so that partial transfers and failures are
  under the control of the environment.
* Every C loop is a recursive function with a fuel argument; the entry points
  pass the loop variant as fuel and the results are `Option`s that are `none`
  only when the fuel runs out.
-/

namespace SimpleFTP

/-- The unsigned value of a C `char`. -/
abbrev Byte := Nat

/-- `#define MAX_BLOCK_SIZE (1024*5)` of `stream.h`. -/
def MAX_BLOCK_SIZE : Nat := 1024 * 5

/-- `#define BUFSIZE (1024*5)` of `myftpd.c` and `myftp.c`. -/
def BUFSIZE : Nat := 1024 * 5

/-- One end of a connection, as the system calls see it. `inp` holds the bytes
that have not been read yet, `out` the bytes written so far. `rsched` and
`wsched` give the outcome of the successive `read` and `write` calls: a
negative entry is a failing call, an entry `r ≥ 0` transfers at most `r` bytes.
When a schedule is used up the calls transfer all they are asked for. -/
structure Fd where
  inp : List Byte
  rsched : List Int
  out : List Byte
  wsched : List Int
deriving DecidableEq, Repr

/-- The call `read(fd, p, count)`: the value returned, the bytes stored at `p`
and the descriptor afterwards. At the end of the input the call returns 0. -/
def sysRead (fd : Fd) (count : Nat) : Int × List Byte × Fd :=
  match fd.rsched with
  | [] => (((fd.inp.take count).length : Int), fd.inp.take count,
            { fd with inp := fd.inp.drop count })
  | r :: rs =>
    if r < 0 then (-1, [], { fd with rsched := rs })
    else
      (((fd.inp.take (min r.toNat count)).length : Int), fd.inp.take (min r.toNat count),
        { fd with inp := fd.inp.drop (min r.toNat count), rsched := rs })

/-- The call `write(fd, p, count)`, where `p` lists the bytes found at the
address `p` (at least `count` of them): the value returned and the descriptor
afterwards. -/
def sysWrite (fd : Fd) (p : List Byte) (count : Nat) : Int × Fd :=
  match fd.wsched with
  | [] => ((count : Int), { fd with out := fd.out ++ p.take count })
  | r :: rs =>
    if r < 0 then (-1, { fd with wsched := rs })
    else
      (((min r.toNat count : Nat) : Int),
        { fd with out := fd.out ++ p.take (min r.toNat count), wsched := rs })

/-- Storing the bytes `bs` at `buf + n`. -/
def store (buf : List Byte) (n : Nat) (bs : List Byte) : List Byte :=
  buf.take n ++ bs ++ buf.drop (n + bs.length)

/-- The value `ntohs(data_size)` of a `short` whose two bytes are, in memory
order, `b0` and `b1`. -/
def ntohs (b0 b1 : Byte) : Nat := (b0 % 256) * 256 + b1 % 256

/-- The two bytes, in memory order, of `htons(data_size)` after
`short data_size = nbytes`. -/
def htons (nbytes : Int) : List Byte :=
  [(nbytes % 65536).toNat / 256, (nbytes % 65536).toNat % 256]

/-- The loop `for (n=0; n < len; n += nr)` of `readn`. -/
def readLoop (len : Nat) : Nat → Fd → List Byte → Nat → Option (Int × List Byte × Fd)
  | 0, fd, buf, n => if n < len then none else some ((len : Int), buf, fd)
  | fuel + 1, fd, buf, n =>
    if n < len then
      match sysRead fd (len - n) with
      | (nr, bs, fd1) =>
        if nr ≤ 0 then some (nr, store buf n bs, fd1)
        else readLoop len fuel fd1 (store buf n bs) (n + nr.toNat)
    else some ((len : Int), buf, fd)

/-- The function `readn(fd, buf, bufsize)` of `stream.c`: the value returned,
the contents of `buf` afterwards and the descriptor afterwards. -/
def readn (fd : Fd) (buf : List Byte) (bufsize : Int) : Option (Int × List Byte × Fd) :=
  if bufsize < (MAX_BLOCK_SIZE : Int) then some (-3, buf, fd)
  else
    match sysRead fd 1 with
    | (r0, b0, fd0) =>
      if r0 ≠ 1 then some (-1, buf, fd0)
      else
        match sysRead fd0 1 with
        | (r1, b1, fd1) =>
          if r1 ≠ 1 then some (-1, buf, fd1)
          else readLoop (ntohs (b0.headD 0) (b1.headD 0)) (ntohs (b0.headD 0) (b1.headD 0)) fd1 buf 0

/-- The loop `for (n=0; n<nbytes; n += nw)` of `writen`. -/
def writeLoop (p : List Byte) (nbytes : Int) : Nat → Fd → Nat → Option (Int × Fd)
  | 0, fd, n => if (n : Int) < nbytes then none else some ((n : Int), fd)
  | fuel + 1, fd, n =>
    if (n : Int) < nbytes then
      match sysWrite fd (p.drop n) (nbytes - n).toNat with
      | (nw, fd1) =>
        if nw ≤ 0 then some (nw, fd1)
        else writeLoop p nbytes fuel fd1 (n + nw.toNat)
    else some ((n : Int), fd)

/-- The function `writen(fd, buf, nbytes)` of `stream.c`: the value returned and
the descriptor afterwards. -/
def writen (fd : Fd) (buf : List Byte) (nbytes : Int) : Option (Int × Fd) :=
  if nbytes > (MAX_BLOCK_SIZE : Int) then some (-3, fd)
  else
    match sysWrite fd (htons nbytes) 1 with
    | (w0, fd0) =>
      if w0 ≠ 1 then some (-1, fd0)
      else
        match sysWrite fd0 ((htons nbytes).drop 1) 1 with
        | (w1, fd1) =>
          if w1 ≠ 1 then some (-1, fd1)
          else writeLoop buf nbytes nbytes.toNat fd1 0

/-- The bytes of one frame on the wire: the length of the payload in two
bytes, most significant first, then the payload. -/
def frame (b : List Byte) : List Byte :=
  (b.length / 256) % 256 :: b.length % 256 :: b

/-- Every call of the schedule transfers at least one byte and none fails. -/
def Healthy (sched : List Int) : Prop := ∀ r ∈ sched, 0 < r

/-! ## C strings and the file system -/

/-- The bytes of a string literal of the source. -/
def lit (s : String) : List Byte := s.toList.map Char.toNat

/-- The C string held in a `char` array: the bytes before the first NUL. -/
def cstr (a : List Byte) : List Byte := a.takeWhile (fun c => c ≠ 0)

/-- The call `strlen(a)`. -/
def strlen (a : List Byte) : Nat := (cstr a).length

/-- The call `strcpy(dst, src)`: the contents of `dst` afterwards. -/
def strcpy (dst src : List Byte) : List Byte := store dst 0 (cstr src ++ [0])

/-- The call `strcat(dst, src)`: the contents of `dst` afterwards. -/
def strcat (dst src : List Byte) : List Byte := store dst (strlen dst) (cstr src ++ [0])

/-- The text that `printf("%s")` prints for a `char` array. -/
def text (a : List Byte) : String := String.mk ((cstr a).map Char.ofNat)

/-- A call of `writen` whose return value the caller drops, as every call in
`myftpd.c` and `myftp.c` does: the descriptor afterwards. -/
def send (fd : Fd) (buf : List Byte) (nbytes : Int) : Option Fd :=
  (writen fd buf nbytes).map (fun r => r.2)

/-- The working directory of a process, as its system calls see it. `cwd` is
the path `getcwd` reports; `files` maps every name that `access(name, F_OK)`
finds to its contents; `denied` lists the names that `open` refuses; `listing`
holds the entry names `readdir` yields, in order, or `none` when `opendir(".")`
fails. -/
structure Dir where
  cwd : List Byte
  files : List (List Byte × List Byte)
  denied : List (List Byte)
  listing : Option (List (List Byte))
deriving DecidableEq, Repr

/-- Whether `access(name, F_OK) == 0`. -/
def Dir.access (d : Dir) (name : List Byte) : Bool := (d.files.lookup name).isSome

/-- The call `open(name, O_RDONLY, S_IRUSR)`: the contents of the opened file,
or `none` when the call returns -1. -/
def Dir.openRead (d : Dir) (name : List Byte) : Option (List Byte) :=
  if name ∈ d.denied then none else d.files.lookup name

/-- The call `open(name, O_WRONLY | O_CREAT, S_IRWXU)`: the contents of the
opened file, empty when the call creates it, or `none` when the call returns
-1. -/
def Dir.openCreate (d : Dir) (name : List Byte) : Option (List Byte) :=
  if name ∈ d.denied then none else some ((d.files.lookup name).getD [])

/-- The directory after the file `name` has got the contents `content`. -/
def Dir.put (d : Dir) (name content : List Byte) : Dir :=
  { d with files := (name, content) :: d.files.filter (fun e => e.1 ≠ name) }

/-- The loop `while ((n = read(fd, buf, block)) > 0) { buf[n] = '\0';
writen(sock, buf, n); }` of the server's `getFile` (`block = sizeof(buf)`) and
of the client's `sendFile` (`block = BUFSIZE-1`), on the part `file` of the
open file that has not been read yet. A `read` on the regular file delivers
`block` bytes, or what is left. -/
def sendLoop (block : Nat) : Nat → Fd → List Byte → Option Fd
  | 0, fd, file => if 0 < (file.take block).length then none else some fd
  | fuel + 1, fd, file =>
    if 0 < (file.take block).length then
      match send fd (file.take block) ((file.take block).length : Int) with
      | none => none
      | some fd1 => sendLoop block fuel fd1 (file.drop block)
    else some fd

/-- The loop `while ((n = readn(sock, buf, sizeof(buf))) > 0) { buf[n] = '\0';
write(fd, buf, n); if (n < sizeof(buf)-2) break; }` of the server's `putFile`
and, with `BUFSIZE-2` for the same bound, of the client's `getFile`: the socket
afterwards and the bytes written to the file, `written` being those written
before. -/
def recvLoop : Nat → Fd → List Byte → List Byte → Option (Fd × List Byte)
  | 0, _, _, _ => none
  | fuel + 1, sock, buf, written =>
    match readn sock buf (BUFSIZE : Int) with
    | none => none
    | some (n, buf1, sock1) =>
      if 0 < n then
        if n < (BUFSIZE : Int) - 2 then some (sock1, written ++ buf1.take n.toNat)
        else recvLoop fuel sock1 (store buf1 n.toNat [0]) (written ++ buf1.take n.toNat)
      else some (sock1, written)

/-- The contents of a file opened with `O_WRONLY | O_CREAT` that held `old`,
after the bytes `written` have been written from its start. -/
def overwrite (old written : List Byte) : List Byte := store old 0 written

/-! ## The server: `myftpd.c` -/

/-- The outcome the environment gives to one call of `chdir`: success, with
the directory the process is in afterwards, or failure with the value of
`errno`. -/
inductive Chdir where
  | ok (d : Dir)
  | fail (errno : Nat)
deriving DecidableEq, Repr

/-- The state of one worker running `serveClient` on its connection: the
socket, the working directory, the outcomes of the `chdir` calls to come, the
arrays `buf` and `response` of `serveClient` (they live across the iterations
of its loop), the contents `junk` that an automatic array has before its first
assignment (C leaves them indeterminate), the path names passed to `open` so
far, and the bytes `filename` at the place of the automatic array `filename`
of `getFile`. Every call of `getFile` is the one call in the loop of
`serveClient`, so the array lies at the same place of the stack in each call:
what the `G` branch copies there is what the next call finds there. What other
calls between two calls of `getFile` leave at that place is not followed.
Output to the log is left out. -/
structure Server where
  sock : Fd
  dir : Dir
  chdirs : List Chdir
  buf : List Byte
  response : List Byte
  junk : List Byte
  opened : List (List Byte)
  filename : List Byte
deriving DecidableEq, Repr

/-- What one iteration of the loop of `serveClient` leads to: `exit(1)`, or
the head of the loop again. -/
inductive Outcome where
  | terminated (s : Server)
  | awaiting (s : Server)
deriving DecidableEq, Repr

namespace Server

/-- The function `readDirFiles(response)` of `myftpd.c`: the contents of
`response` afterwards. The array `directory` is automatic. Both arrays have
`BUFSIZE` bytes in the source and no bound here: what the function does when
the names and their newlines take more than `BUFSIZE - 1` bytes (the `strcat`
calls then write past the end of `directory`) is not described, and the
statements about `D` are made for listings that fit. -/
def readDirFiles (d : Dir) (junk response : List Byte) : List Byte :=
  match d.listing with
  | some names =>
    strcpy response
      (names.foldl (fun directory d_name => strcat (strcat directory (lit "\n")) d_name)
        (store junk 0 [0]))
  | none => strcpy response (lit "1")

/-- The function `getFile(loc_buf, command, sock)` of `myftpd.c`. Its arrays
`response` and `buf` are assigned before they are read. Its array `filename`
is assigned by `strcpy(filename, buf)` in the `G` branch, when the file exists,
and read by `open(filename, ...)` in the `H` branch of a later call, which does
not assign it: the `H` branch opens what the state holds at the place of the
array. -/
def getFile (s : Server) (loc_buf : List Byte) (command : Byte) : Option Server :=
  let buf := strcpy s.junk loc_buf
  if command = 'G'.toNat then
    let response :=
      if s.dir.access (cstr buf) then strcat (strcpy s.junk (lit "G")) (lit "0")
      else strcat (strcpy s.junk (lit "G")) (lit "1")
    let filename := if s.dir.access (cstr buf) then strcpy s.filename buf else s.filename
    match send s.sock response ((strlen response + 1 : Nat) : Int) with
    | none => none
    | some sock1 => some { s with sock := sock1, filename := filename }
  else if command = 'H'.toNat then
    if buf.headD 0 = '0'.toNat then
      match s.dir.openRead (cstr s.filename) with
      | none => some { s with opened := s.opened ++ [cstr s.filename] }
      | some file =>
        match sendLoop BUFSIZE file.length s.sock file with
        | none => none
        | some sock1 => some { s with sock := sock1, opened := s.opened ++ [cstr s.filename] }
    else some s
  else some s

/-- The function `putFile(loc_buf, command, sock)` of `myftpd.c`. -/
def putFile (s : Server) (loc_buf : List Byte) (command : Byte) : Option Server :=
  let buf := strcpy s.junk loc_buf
  if command = 'U'.toNat then
    let response :=
      if s.dir.access (cstr buf) then strcat (strcpy s.junk (lit "U")) (lit "1")
      else strcat (strcpy s.junk (lit "U")) (lit "0")
    let filename := if s.dir.access (cstr buf) then s.junk else strcpy s.junk buf
    match send s.sock response ((strlen response + 1 : Nat) : Int) with
    | none => none
    | some sock1 =>
      if response.getD 1 0 = '0'.toNat then
        let fd := s.dir.openCreate (cstr filename)
        match recvLoop (sock1.inp.length + 1) sock1 buf [] with
        | none => none
        | some (sock2, written) =>
          some { s with
            sock := sock2, opened := s.opened ++ [cstr filename],
            dir := match fd with
              | none => s.dir
              | some old => s.dir.put (cstr filename) (overwrite old written) }
      else some { s with sock := sock1 }
  else some s

/-- The first byte in memory of the `int chdir_result`, which holds 0 or -1:
0 or 255 in either byte order. -/
def firstByte (v : Int) : Byte := (v % 256).toNat

/-- The chain `if (command == 'P') ... else ...` of the loop of `serveClient`,
in the state `s0` reached after `command = buf[0]` and the `memmove`. -/
def dispatch (s0 : Server) (command : Byte) : Option Outcome :=
  if command = 'P'.toNat then
    let response :=
      if strlen s0.dir.cwd < BUFSIZE then strcpy s0.response s0.dir.cwd else s0.response
    match send s0.sock response ((strlen response + 1 : Nat) : Int) with
    | none => none
    | some sock1 => some (Outcome.awaiting { s0 with sock := sock1, response := response })
  else if command = 'D'.toNat then
    let response := readDirFiles s0.dir s0.junk s0.response
    match send s0.sock response ((strlen response + 1 : Nat) : Int) with
    | none => none
    | some sock1 => some (Outcome.awaiting { s0 with sock := sock1, response := response })
  else if command = 'C'.toNat then
    match s0.chdirs with
    | Chdir.ok d :: rest =>
      match send s0.sock [firstByte 0] 1 with
      | none => none
      | some sock1 =>
        some (Outcome.awaiting { s0 with sock := sock1, dir := d, chdirs := rest })
    | Chdir.fail _ :: rest =>
      match send s0.sock [firstByte (-1)] 1 with
      | none => none
      | some sock1 => some (Outcome.awaiting { s0 with sock := sock1, chdirs := rest })
    | [] =>
      match send s0.sock [firstByte (-1)] 1 with
      | none => none
      | some sock1 => some (Outcome.awaiting { s0 with sock := sock1 })
  else if command = 'G'.toNat ∨ command = 'H'.toNat then
    (getFile s0 s0.buf command).map Outcome.awaiting
  else if command = 'U'.toNat ∨ command = 'V'.toNat then
    (putFile s0 s0.buf command).map Outcome.awaiting
  else
    let response := strcpy s0.response (lit "Command not recognised.")
    match send s0.sock response ((strlen response + 1 : Nat) : Int) with
    | none => none
    | some sock1 => some (Outcome.awaiting { s0 with sock := sock1, response := response })

/-- One iteration of the loop `while (1)` of `serveClient`: the call of
`readn`, `exit(1)` on a result `≤ 0`, and otherwise `command = buf[0]`,
`memmove(buf, buf+1, strlen(buf))` and the dispatch on `command`. The array
`buf` has `BUFSIZE` bytes in the source and no bound here, and a `write` that
fails only returns -1 here, whereas a `write` to a connection that the peer
has closed raises `SIGPIPE` and ends the worker: what an iteration does after
a frame of more than `BUFSIZE` bytes, after a frame without a NUL, or when a
`write` fails is not described, and the statements about the session are made
for frames within the array and schedules on which every `write` succeeds. -/
def serveStep (s : Server) : Option Outcome :=
  match readn s.sock s.buf (BUFSIZE : Int) with
  | none => none
  | some (nr, buf0, sock0) =>
    if nr ≤ 0 then some (Outcome.terminated { s with sock := sock0, buf := buf0 })
    else
      dispatch { s with sock := sock0, buf := store buf0 0 ((buf0.drop 1).take (strlen buf0)) }
        (buf0.headD 0)

/-- The function `serveClient(sock)` of `myftpd.c`: the state in which the
worker calls `exit(1)`. -/
def serveClient : Nat → Server → Option Server
  | 0, _ => none
  | fuel + 1, s =>
    match serveStep s with
    | none => none
    | some (Outcome.terminated s1) => some s1
    | some (Outcome.awaiting s1) => serveClient fuel s1

end Server

/-! ## The client: `myftp.c` -/

/-- The state of the client: the socket, the local working directory, the
contents `junk` that an automatic array has before its first assignment, the
path names passed to `open` so far and the lines printed so far. The socket's
`inp` holds what the server sends; a `readn` of the client blocks until then. -/
structure Client where
  sock : Fd
  dir : Dir
  junk : List Byte
  opened : List (List Byte)
  stdout : List String
deriving DecidableEq, Repr

namespace Client

/-- The entry `token[i]` of the token array as a C string, empty for `NULL`. -/
def tok (token : List (Option (List Byte))) (i : Nat) : List Byte :=
  ((token.getD i none).getD [])

/-- Whether `token[i] == NULL`. -/
def isNull (token : List (Option (List Byte))) (i : Nat) : Bool :=
  (token.getD i none).isNone

/-- The function `getFile(sock, send, token)` of `myftp.c`. -/
def getFile (c : Client) (send0 : List Byte) (token : List (Option (List Byte))) :
    Option Client :=
  if c.dir.access (cstr (tok token 1)) then
    some { c with stdout := c.stdout ++ ["File already exists in the current client directory!\n"] }
  else
    match send c.sock send0 ((strlen send0 + 1 : Nat) : Int) with
    | none => none
    | some sock1 =>
      match readn sock1 c.junk (BUFSIZE : Int) with
      | none => none
      | some (_, response, sock2) =>
        if response.getD 1 0 = '0'.toNat then
          let send1 := strcat (strcpy send0 (lit "H")) (lit "0")
          match send sock2 send1 ((strlen send1 + 1 : Nat) : Int) with
          | none => none
          | some sock3 =>
            let fd := c.dir.openCreate (cstr (tok token 1))
            match recvLoop (sock3.inp.length + 1) sock3 c.junk [] with
            | none => none
            | some (sock4, written) =>
              some { c with
                sock := sock4, opened := c.opened ++ [cstr (tok token 1)],
                dir := match fd with
                  | none => c.dir
                  | some old => c.dir.put (cstr (tok token 1)) (overwrite old written),
                stdout := c.stdout ++ ["File successfully downloaded from server\n"] }
        else if response.getD 1 0 = '1'.toNat then
          some { c with
            sock := sock2,
            stdout := c.stdout ++ ["File does not exist in the current server directory!\n"] }
        else
          some { c with
            sock := sock2,
            stdout := c.stdout ++ ["Server does not have permission to send the file!\n"] }

/-- The function `sendFile(sock, send, token)` of `myftp.c`. -/
def sendFile (c : Client) (send0 : List Byte) (token : List (Option (List Byte))) :
    Option Client :=
  if ¬ c.dir.access (cstr (tok token 1)) then
    some { c with stdout := c.stdout ++ ["File does not exist in the current client directory!\n"] }
  else
    match send c.sock send0 ((strlen send0 + 1 : Nat) : Int) with
    | none => none
    | some sock1 =>
      match readn sock1 c.junk (BUFSIZE : Int) with
      | none => none
      | some (_, response, sock2) =>
        if response.getD 1 0 = '0'.toNat then
          match c.dir.openRead (cstr (tok token 1)) with
          | none =>
            some { c with
              sock := sock2, opened := c.opened ++ [cstr (tok token 1)],
              stdout := c.stdout ++ ["File successfully sent to server\n"] }
          | some file =>
            match sendLoop (BUFSIZE - 1) file.length sock2 file with
            | none => none
            | some sock3 =>
              some { c with
                sock := sock3, opened := c.opened ++ [cstr (tok token 1)],
                stdout := c.stdout ++ ["File successfully sent to server\n"] }
        else if response.getD 1 0 = '1'.toNat then
          some { c with
            sock := sock2, stdout := c.stdout ++ ["File already exists on the server!\n"] }
        else
          some { c with
            sock := sock2,
            stdout := c.stdout ++ ["Server does not have permission to accept the file!"] }

/-- The function `serverCommands(loc_token, loc_sock)` of `myftp.c`. The
arrays `send` and `response` are automatic. -/
def serverCommands (c : Client) (token : List (Option (List Byte))) : Option Client :=
  if cstr (tok token 0) = lit "pwd" ∧ isNull token 1 then
    let send0 := strcpy c.junk (lit "P")
    match send c.sock send0 ((strlen send0 + 1 : Nat) : Int) with
    | none => none
    | some sock1 =>
      match readn sock1 c.junk (BUFSIZE : Int) with
      | none => none
      | some (_, response, sock2) =>
        some { c with
          sock := sock2,
          stdout := c.stdout ++ ["Server working dir: " ++ text response ++ "\n"] }
  else if cstr (tok token 0) = lit "dir" ∧ isNull token 1 then
    let send0 := strcpy c.junk (lit "D")
    match send c.sock send0 ((strlen send0 + 1 : Nat) : Int) with
    | none => none
    | some sock1 =>
      match readn sock1 c.junk (BUFSIZE : Int) with
      | none => none
      | some (_, response, sock2) =>
        if response.getD 0 0 = 1 then
          some { c with sock := sock2, stdout := c.stdout ++ ["Server could not open directory\n"] }
        else
          some { c with
            sock := sock2,
            stdout := c.stdout ++ ["Files in server working dir: " ++ text response ++ "\n"] }
  else if cstr (tok token 0) = lit "cd" ∧ isNull token 2 then
    let send0 :=
      if ¬ isNull token 1 then strcat (strcpy c.junk (lit "C")) (tok token 1)
      else strcat (strcpy c.junk (lit "C")) (lit "/")
    match send c.sock send0 ((strlen send0 + 1 : Nat) : Int) with
    | none => none
    | some sock1 =>
      match readn sock1 c.junk (BUFSIZE : Int) with
      | none => none
      | some (_, response, sock2) =>
        if response.getD 0 0 ≠ 0 then
          some { c with sock := sock2, stdout := c.stdout ++ ["Error changing directory\n"] }
        else
          some { c with sock := sock2, stdout := c.stdout ++ ["Directory successfully changed\n"] }
  else if cstr (tok token 0) = lit "get" ∧ isNull token 2 then
    if ¬ isNull token 1 then
      getFile c (strcat (strcpy c.junk (lit "G")) (tok token 1)) token
    else some { c with stdout := c.stdout ++ ["No file name provided!\n"] }
  else if cstr (tok token 0) = lit "put" ∧ isNull token 2 then
    if ¬ isNull token 1 then
      sendFile c (strcat (strcpy c.junk (lit "U")) (tok token 1)) token
    else some { c with stdout := c.stdout ++ ["No file name provided!\n"] }
  else some { c with stdout := c.stdout ++ ["Invalid input! Please try again.\n"] }

end Client

/-! ## The client's start: `main` of `myftp.c` -/

/-- `#define SERV_TCP_PORT 41147` of `myftp.c`. -/
def SERV_TCP_PORT : Nat := 41147

/-- How `main` of `myftp.c` goes on once it has read its arguments: it prints
`msg` and calls `exit(1)`, or it calls `socketSetup(port, host)`. -/
inductive Startup where
  | exit (msg : String)
  | connect (host : List Byte) (port : Nat)
deriving DecidableEq, Repr

/-- The part of `main(argc, argv)` of `myftp.c` before `socketSetup`, with
`argc = argv.length`. The library function `atoi` is a parameter. The value
`n` is assigned to the `unsigned short port`. -/
def Client.main (atoi : List Byte → Int) (argv : List (List Byte)) : Startup :=
  if argv.length = 1 then Startup.connect (lit "localhost") SERV_TCP_PORT
  else if argv.length = 2 then Startup.connect (cstr (argv.getD 1 [])) SERV_TCP_PORT
  else if argv.length = 3 then
    if atoi (argv.getD 2 []) ≥ 1024 ∧ atoi (argv.getD 2 []) < 65536 then
      Startup.connect (cstr (argv.getD 1 [])) (atoi (argv.getD 2 []) % 65536).toNat
    else Startup.exit "Error: server port number must be between 1024 and 65535\n"
  else
    Startup.exit
      ("Syntax: " ++ text (argv.getD 0 []) ++ " <server host name> <server listening port>\n")

/-! ## The tokeniser: `token.c` -/

/-- `#define MAX_NUM_TOKENS 1000` of `token.h`. -/
def MAX_NUM_TOKENS : Nat := 1000

/-- `#define tokenSeparators " \t\n"` of `token.h`. -/
def tokenSeparators : List Byte := lit " \t\n"

/-- Whether the character is one of `tokenSeparators`. -/
def isSep (c : Byte) : Bool := decide (c ∈ tokenSeparators)

/-- The library call `strtok(p, tokenSeparators)` as the C standard describes
it, on the string `rest` where the scan starts (the line for the first call,
the saved position for a call with `NULL`): it skips the separators, returns
`NULL` when nothing is left, and otherwise returns the characters up to the
next separator and saves the position after that separator. The result is the
token (`none` for `NULL`) and the string at the saved position. -/
def strtok (rest : List Byte) : Option (List Byte) × List Byte :=
  match rest.dropWhile isSep with
  | [] => (none, [])
  | c :: cs =>
    (some ((c :: cs).takeWhile (fun x => !isSep x)),
      ((c :: cs).dropWhile (fun x => !isSep x)).drop 1)

/-- The assignment `token[i] = tk` on the array of pointers `token`. -/
def setAt (token : List (Option (List Byte))) (i : Nat) (tk : Option (List Byte)) :
    List (Option (List Byte)) :=
  token.take i ++ tk :: token.drop (i + 1)

/-- The loop `while (tk != NULL)` of `tokenise`, entered with the counter `i`,
the last token `tk` and the position `rest` that `strtok` has saved. -/
def tokeniseLoop :
    Nat → Nat → Option (List Byte) → List Byte → List (Option (List Byte)) →
      Option (List (Option (List Byte)))
  | 0, _, tk, _, token => if tk.isSome then none else some token
  | fuel + 1, i, tk, rest, token =>
    if tk.isSome then
      if i + 1 ≥ MAX_NUM_TOKENS then some token
      else
        tokeniseLoop fuel (i + 1) (strtok rest).1 (strtok rest).2
          (setAt token (i + 1) (strtok rest).1)
    else some token

/-- The function `tokenise(line, token)` of `token.c`: the array `token`
afterwards. -/
def tokenise (line : List Byte) (token : List (Option (List Byte))) :
    Option (List (Option (List Byte))) :=
  tokeniseLoop MAX_NUM_TOKENS 0 (strtok (cstr line)).1 (strtok (cstr line)).2
    (setAt token 0 (strtok (cstr line)).1)

/-! ## Notions of the specification -/

/-- The maximal runs of characters other than the separators, in their order
in the line: the non-empty pieces between separators. -/
def maximalRuns (line : List Byte) : List (List Byte) :=
  (line.splitOnP isSep).filter (fun r => !r.isEmpty)

/-- The names joined by newline characters, one between consecutive names. -/
def joinNames : List (List Byte) → List Byte
  | [] => []
  | [n] => n
  | n :: m :: ns => n ++ '\n'.toNat :: joinNames (m :: ns)

/-- Every name preceded by a newline character. -/
def newlineBefore : List (List Byte) → List Byte
  | [] => []
  | n :: ns => '\n'.toNat :: n ++ newlineBefore ns

/-! ## Example data -/

/-- A source file of 5119 bytes: exactly one block of the client's `sendFile`,
which reads `BUFSIZE-1` bytes at a time. -/
def oneBlockFile : List Byte := List.replicate 5119 'A'.toNat

/-- A file of 5118 bytes: less than one block of the server's `getFile`, which
reads `sizeof(buf)` = 5120 bytes at a time. -/
def shortBlockFile : List Byte := List.replicate 5118 'A'.toNat

theorem Healthy.tail {r : Int} {rs : List Int} (h : Healthy (r :: rs)) : Healthy rs :=
  fun x hx => h x (List.mem_cons_of_mem _ hx)

theorem Healthy.head {r : Int} {rs : List Int} (h : Healthy (r :: rs)) : 0 < r :=
  h r (List.mem_cons_self _ _)

/-- What a call of `write` can do: fail with -1 and write nothing, or accept
`k ≤ count` bytes. -/
theorem sysWrite_cases (fd : Fd) (p : List Byte) (count : Nat) :
    ((sysWrite fd p count).1 = -1 ∧ (sysWrite fd p count).2.out = fd.out) ∨
    (∃ k : Nat, k ≤ count ∧ (sysWrite fd p count).1 = (k : Int) ∧
      (sysWrite fd p count).2.out = fd.out ++ p.take k) := by
  unfold sysWrite
  cases h : fd.wsched with
  | nil => exact Or.inr ⟨count, le_refl _, rfl, rfl⟩
  | cons r rs =>
    by_cases hr : r < 0
    · simp [hr]
    · simp only [hr, if_false]
      exact Or.inr ⟨min r.toNat count, Nat.min_le_right _ _, rfl, rfl⟩

/-- A call of `write` leaves the read side of the descriptor alone. -/
theorem sysWrite_inp (fd : Fd) (p : List Byte) (count : Nat) :
    (sysWrite fd p count).2.inp = fd.inp ∧ (sysWrite fd p count).2.rsched = fd.rsched := by
  unfold sysWrite
  cases h : fd.wsched with
  | nil => exact ⟨rfl, rfl⟩
  | cons r rs => by_cases hr : r < 0 <;> simp [hr]

/-- Under a healthy schedule a call of `write` for `count > 0` bytes accepts
between 1 and `count` of them. -/
theorem sysWrite_healthy (fd : Fd) (p : List Byte) (count : Nat)
    (hs : Healthy fd.wsched) (hc : 0 < count) :
    ∃ k ws, 0 < k ∧ k ≤ count ∧ Healthy ws ∧
      sysWrite fd p count = ((k : Int), { fd with out := fd.out ++ p.take k, wsched := ws }) := by
  unfold sysWrite
  cases h : fd.wsched with
  | nil =>
    refine ⟨count, [], hc, le_refl _, ?_, ?_⟩
    · intro r hr; cases hr
    · simp [h]
  | cons r rs =>
    rw [h] at hs
    have hr : 0 < r := hs.head
    have hr' : ¬ r < 0 := by omega
    refine ⟨min r.toNat count, rs, ?_, Nat.min_le_right _ _, hs.tail, ?_⟩
    · have : 0 < r.toNat := by omega
      omega
    · simp [hr']

theorem take_drop_min_length (l : List Byte) (c : Nat) :
    l.take (min c l.length) = l.take c ∧ l.drop (min c l.length) = l.drop c := by
  by_cases h : c ≤ l.length
  · rw [Nat.min_eq_left h]; exact ⟨rfl, rfl⟩
  · have h' : l.length ≤ c := by omega
    rw [Nat.min_eq_right h', List.take_length, List.drop_length,
      List.take_of_length_le h', List.drop_of_length_le h']
    exact ⟨rfl, rfl⟩

/-- Under a healthy schedule a call of `read` for `count > 0` bytes on a
descriptor with pending input delivers between 1 and `count` of them. -/
theorem sysRead_healthy (fd : Fd) (count : Nat)
    (hs : Healthy fd.rsched) (hc : 0 < count) (hi : 0 < fd.inp.length) :
    ∃ k rs, 0 < k ∧ k ≤ count ∧ k ≤ fd.inp.length ∧ Healthy rs ∧
      sysRead fd count =
        ((k : Int), fd.inp.take k, { fd with inp := fd.inp.drop k, rsched := rs }) := by
  unfold sysRead
  cases h : fd.rsched with
  | nil =>
    refine ⟨min count fd.inp.length, [], by omega, Nat.min_le_left _ _, Nat.min_le_right _ _,
      ?_, ?_⟩
    · intro r hr; cases hr
    · obtain ⟨h1, h2⟩ := take_drop_min_length fd.inp count
      simp only [h1, h2, h, List.length_take]
  | cons r rs =>
    rw [h] at hs
    have hr : 0 < r := hs.head
    have hr' : ¬ r < 0 := by omega
    have hk : 0 < min r.toNat count := by
      have : 0 < r.toNat := by omega
      omega
    refine ⟨min (min r.toNat count) fd.inp.length, rs, by omega,
      le_trans (Nat.min_le_left _ _) (Nat.min_le_right _ _), Nat.min_le_right _ _, hs.tail, ?_⟩
    obtain ⟨h1, h2⟩ := take_drop_min_length fd.inp (min r.toNat count)
    simp only [hr', if_false, h1, h2, List.length_take]

/-- At the end of the input a call of `read` delivers nothing and returns 0,
unless the call fails, and then it returns -1. -/
theorem sysRead_eof (fd : Fd) (count : Nat) (hi : fd.inp = []) :
    (sysRead fd count).1 = 0 ∨ (sysRead fd count).1 = -1 := by
  unfold sysRead
  cases h : fd.rsched with
  | nil => left; simp [hi]
  | cons r rs =>
    by_cases hr : r < 0
    · right; simp [hr]
    · left; simp [hr, hi]

/-! ## The loops of `writen` and `readn` -/

theorem take_take_drop (q : List Byte) (k m : Nat) (h : k ≤ m) :
    q.take k ++ (q.drop k).take (m - k) = q.take m := by
  have : m = k + (m - k) := by omega
  conv_rhs => rw [this, List.take_add]

theorem take_drop_step (p : List Byte) (n k N : Nat) (hk : k ≤ N - n) :
    (p.drop n).take k ++ (p.drop (n + k)).take (N - (n + k)) = (p.drop n).take (N - n) := by
  have h := take_take_drop (p.drop n) k (N - n) hk
  rw [List.drop_drop, Nat.sub_sub] at h
  exact h

/-- When the loop of `writen` returns a positive value, that value is `N` and
the loop has appended the `N - n` bytes that were left to send. -/
theorem writeLoop_success (p : List Byte) (N : Nat) :
    ∀ (fuel : Nat) (fd : Fd) (n : Nat) (ret : Int) (fd' : Fd), n ≤ N →
      writeLoop p (N : Int) fuel fd n = some (ret, fd') → 0 < ret →
      ret = (N : Int) ∧ fd'.out = fd.out ++ (p.drop n).take (N - n) ∧
        fd'.inp = fd.inp ∧ fd'.rsched = fd.rsched := by
  intro fuel
  induction fuel with
  | zero =>
    intro fd n ret fd' hn h hpos
    unfold writeLoop at h
    by_cases hlt : (n : Int) < (N : Int)
    · simp [hlt] at h
    · simp only [hlt, if_false, Option.some.injEq, Prod.mk.injEq] at h
      obtain ⟨h1, h2⟩ := h
      have hnN : n = N := by omega
      subst h2
      subst hnN
      simp [← h1]
  | succ fuel ih =>
    intro fd n ret fd' hn h hpos
    unfold writeLoop at h
    by_cases hlt : (n : Int) < (N : Int)
    · simp only [hlt, if_true] at h
      have hcount : ((N : Int) - (n : Int)).toNat = N - n := by omega
      rw [hcount] at h
      obtain ⟨hi1, hi2⟩ := sysWrite_inp fd (p.drop n) (N - n)
      rcases sysWrite_cases fd (p.drop n) (N - n) with ⟨he, _⟩ | ⟨k, hk, hret, hout⟩
      · simp only [he] at h
        simp at h
        omega
      · by_cases hk0 : k = 0
        · subst hk0
          simp only [hret] at h
          simp at h
          omega
        · have hnw : ¬ ((k : Int) ≤ 0) := by omega
          simp only [hret, hnw, if_false, Int.toNat_ofNat] at h
          obtain ⟨h1, h2, h3, h4⟩ := ih _ _ _ _ (by omega) h hpos
          refine ⟨h1, ?_, h3.trans hi1, h4.trans hi2⟩
          rw [h2, hout, List.append_assoc, take_drop_step p n k N hk]
    · simp only [hlt, if_false, Option.some.injEq, Prod.mk.injEq] at h
      obtain ⟨h1, h2⟩ := h
      have hnN : n = N := by omega
      subst h2
      subst hnN
      simp [← h1]

/-- Under a healthy schedule, and with fuel for the bytes left, the loop of
`writen` sends all the bytes that were left and returns `N`. -/
theorem writeLoop_healthy (p : List Byte) (N : Nat) :
    ∀ (fuel : Nat) (fd : Fd) (n : Nat), n ≤ N → N - n ≤ fuel → Healthy fd.wsched →
      ∃ ws, Healthy ws ∧
        writeLoop p (N : Int) fuel fd n =
          some ((N : Int), { fd with out := fd.out ++ (p.drop n).take (N - n), wsched := ws }) := by
  intro fuel
  induction fuel with
  | zero =>
    intro fd n hn hf hs
    have hnN : n = N := by omega
    subst hnN
    exact ⟨fd.wsched, hs, by simp [writeLoop]⟩
  | succ fuel ih =>
    intro fd n hn hf hs
    unfold writeLoop
    by_cases hlt : (n : Int) < (N : Int)
    · simp only [hlt, if_true]
      have hcount : ((N : Int) - (n : Int)).toNat = N - n := by omega
      rw [hcount]
      obtain ⟨k, ws, hk0, hk, hws, he⟩ := sysWrite_healthy fd (p.drop n) (N - n) hs (by omega)
      have hnw : ¬ ((k : Int) ≤ 0) := by omega
      simp only [he, hnw, if_false, Int.toNat_ofNat]
      clear hcount
      obtain ⟨ws', hws', he'⟩ := ih { fd with out := fd.out ++ (p.drop n).take k, wsched := ws }
        (n + k) (by omega) (by omega) hws
      refine ⟨ws', hws', ?_⟩
      rw [he']
      simp only [List.append_assoc, take_drop_step p n k N hk]
    · have hnN : n = N := by omega
      subst hnN
      exact ⟨fd.wsched, hs, by simp⟩

theorem store_take (buf : List Byte) (n : Nat) (bs : List Byte) (h : n ≤ buf.length) :
    (store buf n bs).take (n + bs.length) = buf.take n ++ bs := by
  unfold store
  have hl : (buf.take n ++ bs).length = n + bs.length := by
    simp [List.length_take, Nat.min_eq_left h]
  rw [← hl, List.take_left]

theorem store_drop (buf : List Byte) (n : Nat) (bs : List Byte) (m : Nat)
    (h : n ≤ buf.length) (hm : n + bs.length ≤ m) :
    (store buf n bs).drop m = buf.drop m := by
  unfold store
  have hl : (buf.take n ++ bs).length = n + bs.length := by
    simp [List.length_take, Nat.min_eq_left h]
  have hm' : m = (buf.take n ++ bs).length + (m - (n + bs.length)) := by omega
  conv_lhs => rw [hm', List.drop_append, List.drop_drop]
  congr 1
  omega

theorem store_length (buf : List Byte) (n : Nat) (bs : List Byte) (h : n ≤ buf.length) :
    n + bs.length ≤ (store buf n bs).length := by
  unfold store
  simp [List.length_take, Nat.min_eq_left h]

/-- Under a healthy schedule, with fuel for the bytes left and with these bytes
pending on the descriptor, the loop of `readn` stores them at `buf + n` and
returns `len`. -/
theorem readLoop_healthy (len : Nat) :
    ∀ (fuel : Nat) (fd : Fd) (buf : List Byte) (n : Nat), n ≤ len → len - n ≤ fuel →
      n ≤ buf.length → len - n ≤ fd.inp.length → Healthy fd.rsched →
      ∃ rs, Healthy rs ∧
        readLoop len fuel fd buf n =
          some ((len : Int), buf.take n ++ fd.inp.take (len - n) ++ buf.drop len,
            { fd with inp := fd.inp.drop (len - n), rsched := rs }) := by
  intro fuel
  induction fuel with
  | zero =>
    intro fd buf n hn hf hb hi hs
    have hnl : n = len := by omega
    subst hnl
    exact ⟨fd.rsched, hs, by simp [readLoop]⟩
  | succ fuel ih =>
    intro fd buf n hn hf hb hi hs
    unfold readLoop
    by_cases hlt : n < len
    · simp only [hlt, if_true]
      obtain ⟨k, rs, hk0, hk, hki, hrs, he⟩ := sysRead_healthy fd (len - n) hs (by omega) (by omega)
      have hnr : ¬ ((k : Int) ≤ 0) := by omega
      simp only [he, hnr, if_false, Int.toNat_ofNat]
      have hlen : (fd.inp.take k).length = k := by
        rw [List.length_take]; exact Nat.min_eq_left hki
      have hb1 : n + k ≤ (store buf n (fd.inp.take k)).length := by
        have := store_length buf n (fd.inp.take k) hb
        rwa [hlen] at this
      obtain ⟨rs', hrs', he'⟩ := ih { fd with inp := fd.inp.drop k, rsched := rs }
        (store buf n (fd.inp.take k)) (n + k) (by omega) (by omega) hb1
        (by simp only [List.length_drop]; omega) hrs
      refine ⟨rs', hrs', ?_⟩
      rw [he']
      have h1 : (store buf n (fd.inp.take k)).take (n + k) = buf.take n ++ fd.inp.take k := by
        have := store_take buf n (fd.inp.take k) hb
        rwa [hlen] at this
      have h2 : (store buf n (fd.inp.take k)).drop len = buf.drop len :=
        store_drop buf n (fd.inp.take k) len hb (by rw [hlen]; omega)
      have h3 : fd.inp.take k ++ (fd.inp.drop k).take (len - (n + k)) = fd.inp.take (len - n) := by
        have := take_take_drop fd.inp k (len - n) hk
        rwa [Nat.sub_sub] at this
      have h4 : (fd.inp.drop k).drop (len - (n + k)) = fd.inp.drop (len - n) := by
        rw [List.drop_drop]; congr 1; omega
      simp only [h1, h2, h4, List.append_assoc, ← h3]
    · have hnl : n = len := by omega
      subst hnl
      exact ⟨fd.rsched, hs, by simp⟩

/-- The loop of `readn` returns whenever its fuel covers the bytes left. -/
theorem readLoop_total (len : Nat) :
    ∀ (fuel : Nat) (fd : Fd) (buf : List Byte) (n : Nat), len - n ≤ fuel →
      (readLoop len fuel fd buf n).isSome = true := by
  intro fuel
  induction fuel with
  | zero =>
    intro fd buf n hf
    have : ¬ n < len := by omega
    simp [readLoop, this]
  | succ fuel ih =>
    intro fd buf n hf
    unfold readLoop
    by_cases hlt : n < len
    · simp only [hlt, if_true]
      by_cases hnr : (sysRead fd (len - n)).1 ≤ 0
      · simp [hnr]
      · simp only [hnr, if_false]
        apply ih
        have : 0 < (sysRead fd (len - n)).1.toNat := by omega
        omega
    · simp [hlt]

/-- The loop of `writen` returns whenever its fuel covers the bytes left. -/
theorem writeLoop_total (p : List Byte) (nbytes : Int) :
    ∀ (fuel : Nat) (fd : Fd) (n : Nat), nbytes - (n : Int) ≤ (fuel : Int) →
      (writeLoop p nbytes fuel fd n).isSome = true := by
  intro fuel
  induction fuel with
  | zero =>
    intro fd n hf
    have : ¬ (n : Int) < nbytes := by omega
    simp [writeLoop, this]
  | succ fuel ih =>
    intro fd n hf
    unfold writeLoop
    by_cases hlt : (n : Int) < nbytes
    · simp only [hlt, if_true]
      by_cases hnw : (sysWrite fd (p.drop n) (nbytes - (n : Int)).toNat).1 ≤ 0
      · rw [if_pos hnw]; rfl
      · rw [if_neg hnw]
        apply ih
        have : 0 < (sysWrite fd (p.drop n) (nbytes - (n : Int)).toNat).1.toNat := by omega
        push_cast
        omega
    · simp [hlt]

/-- The function `readn` returns on every descriptor, buffer and capacity: the
fuel it passes to its loop is enough. -/
theorem readn_total (fd : Fd) (buf : List Byte) (bufsize : Int) :
    (readn fd buf bufsize).isSome = true := by
  unfold readn
  by_cases h : bufsize < (MAX_BLOCK_SIZE : Int)
  · simp [h]
  · simp only [h, if_false]
    by_cases h0 : (sysRead fd 1).1 ≠ 1
    · simp [h0]
    · simp only [h0, if_false]
      by_cases h1 : (sysRead (sysRead fd 1).2.2 1).1 ≠ 1
      · simp [h1]
      · simp only [h1, if_false]
        exact readLoop_total _ _ _ _ _ (by omega)

/-- The function `writen` returns on every descriptor, buffer and count. -/
theorem writen_total (fd : Fd) (buf : List Byte) (nbytes : Int) :
    (writen fd buf nbytes).isSome = true := by
  unfold writen
  by_cases h : nbytes > (MAX_BLOCK_SIZE : Int)
  · simp [h]
  · simp only [h, if_false]
    by_cases h0 : (sysWrite fd (htons nbytes) 1).1 ≠ 1
    · simp [h0]
    · simp only [h0, if_false]
      by_cases h1 : (sysWrite (sysWrite fd (htons nbytes) 1).2 ((htons nbytes).drop 1) 1).1 ≠ 1
      · rw [if_pos h1]; rfl
      · rw [if_neg h1]
        exact writeLoop_total _ _ _ _ _ (by omega)

theorem htons_of_nat (N : Nat) (h : N < 65536) : htons (N : Int) = [N / 256, N % 256] := by
  unfold htons
  have : ((N : Int) % 65536).toNat = N := by omega
  rw [this]

theorem frame_eq (b : List Byte) (h : b.length < 65536) :
    frame b = htons (b.length : Int) ++ b := by
  rw [htons_of_nat _ h]
  unfold frame
  have : b.length / 256 % 256 = b.length / 256 := by omega
  rw [this]
  rfl

/-- Under a healthy write schedule `writen` sends the two bytes of the count
and then the first `N` bytes of the buffer, and returns `N`. -/
theorem writen_healthy (fd : Fd) (p : List Byte) (N : Nat) (hN : N ≤ MAX_BLOCK_SIZE)
    (hs : Healthy fd.wsched) :
    ∃ ws, Healthy ws ∧
      writen fd p (N : Int) =
        some ((N : Int), { fd with out := fd.out ++ (htons (N : Int) ++ p.take N), wsched := ws }) := by
  unfold writen
  have h : ¬ (N : Int) > (MAX_BLOCK_SIZE : Int) := by omega
  simp only [h, if_false]
  obtain ⟨k0, ws0, hk0, hk0', hws0, he0⟩ := sysWrite_healthy fd (htons (N : Int)) 1 hs (by omega)
  have hk0e : k0 = 1 := by omega
  subst hk0e
  simp only [he0]
  obtain ⟨k1, ws1, hk1, hk1', hws1, he1⟩ :=
    sysWrite_healthy { fd with out := fd.out ++ (htons (N : Int)).take 1, wsched := ws0 }
      ((htons (N : Int)).drop 1) 1 hws0 (by omega)
  have hk1e : k1 = 1 := by omega
  subst hk1e
  simp only [he1]
  obtain ⟨ws, hws, he⟩ := writeLoop_healthy p N N
    { fd with out := fd.out ++ (htons (N : Int)).take 1 ++ ((htons (N : Int)).drop 1).take 1,
              wsched := ws1 } 0 (by omega) (by omega) hws1
  refine ⟨ws, hws, ?_⟩
  simp only [Nat.cast_one, ne_eq, not_true_eq_false, if_false, Int.toNat_ofNat]
  rw [he]
  simp [htons]

/-- The definition of `readn` with the results of the calls as projections. -/
theorem readn_eq (fd : Fd) (buf : List Byte) (bufsize : Int) :
    readn fd buf bufsize =
      if bufsize < (MAX_BLOCK_SIZE : Int) then some (-3, buf, fd)
      else if (sysRead fd 1).1 ≠ 1 then some (-1, buf, (sysRead fd 1).2.2)
      else if (sysRead (sysRead fd 1).2.2 1).1 ≠ 1 then
        some (-1, buf, (sysRead (sysRead fd 1).2.2 1).2.2)
      else
        readLoop
          (ntohs ((sysRead fd 1).2.1.headD 0) ((sysRead (sysRead fd 1).2.2 1).2.1.headD 0))
          (ntohs ((sysRead fd 1).2.1.headD 0) ((sysRead (sysRead fd 1).2.2 1).2.1.headD 0))
          (sysRead (sysRead fd 1).2.2 1).2.2 buf 0 := rfl

/-- The definition of `writen` with the results of the calls as projections. -/
theorem writen_eq (fd : Fd) (buf : List Byte) (nbytes : Int) :
    writen fd buf nbytes =
      if nbytes > (MAX_BLOCK_SIZE : Int) then some (-3, fd)
      else if (sysWrite fd (htons nbytes) 1).1 ≠ 1 then
        some (-1, (sysWrite fd (htons nbytes) 1).2)
      else if (sysWrite (sysWrite fd (htons nbytes) 1).2 ((htons nbytes).drop 1) 1).1 ≠ 1 then
        some (-1, (sysWrite (sysWrite fd (htons nbytes) 1).2 ((htons nbytes).drop 1) 1).2)
      else
        writeLoop buf nbytes nbytes.toNat
          (sysWrite (sysWrite fd (htons nbytes) 1).2 ((htons nbytes).drop 1) 1).2 0 := rfl

/-- Under a healthy read schedule, `readn` on a descriptor whose input starts
with two length bytes followed by as many payload bytes as they announce
returns that length, stores the payload at the start of the buffer and leaves
the rest of the input pending. -/
theorem readn_frame (fd : Fd) (h0 h1 : Byte) (pl rest buf : List Byte) (bufsize : Int)
    (hin : fd.inp = h0 :: h1 :: (pl ++ rest)) (hlen : ntohs h0 h1 = pl.length)
    (hcap : (MAX_BLOCK_SIZE : Int) ≤ bufsize) (hs : Healthy fd.rsched) :
    ∃ rs, Healthy rs ∧
      readn fd buf bufsize =
        some ((pl.length : Int), pl ++ buf.drop pl.length, { fd with inp := rest, rsched := rs }) := by
  unfold readn
  have h : ¬ bufsize < (MAX_BLOCK_SIZE : Int) := by omega
  rw [if_neg h]
  obtain ⟨k0, rs0, hk0, hk0', _, hrs0, he0⟩ := sysRead_healthy fd 1 hs (by omega) (by simp [hin])
  have hk0e : k0 = 1 := by omega
  subst hk0e
  rw [he0]
  simp only [Nat.cast_one, ne_eq, not_true_eq_false, if_false]
  obtain ⟨k1, rs1, hk1, hk1', _, hrs1, he1⟩ :=
    sysRead_healthy { fd with inp := fd.inp.drop 1, rsched := rs0 } 1 hrs0 (by omega)
      (by simp [hin])
  have hk1e : k1 = 1 := by omega
  subst hk1e
  rw [he1]
  simp only [Nat.cast_one, ne_eq, not_true_eq_false, if_false]
  have e0 : (fd.inp.take 1).headD 0 = h0 := by simp [hin]
  have e1 : ((fd.inp.drop 1).take 1).headD 0 = h1 := by simp [hin]
  have e2 : (fd.inp.drop 1).drop 1 = pl ++ rest := by simp [hin]
  rw [e0, e1, e2, hlen]
  obtain ⟨rs, hrs, he⟩ := readLoop_healthy pl.length pl.length
    { fd with inp := pl ++ rest, rsched := rs1 } buf 0 (by omega) (by omega) (by omega)
    (by simp) hrs1
  refine ⟨rs, hrs, ?_⟩
  rw [he]
  simp

/-- The same for a frame as `writen` lays it out. -/
theorem readn_of_frame (fd : Fd) (b rest buf : List Byte) (bufsize : Int)
    (hin : fd.inp = frame b ++ rest) (hb : b.length < 65536)
    (hcap : (MAX_BLOCK_SIZE : Int) ≤ bufsize) (hs : Healthy fd.rsched) :
    ∃ rs, Healthy rs ∧
      readn fd buf bufsize =
        some ((b.length : Int), b ++ buf.drop b.length, { fd with inp := rest, rsched := rs }) := by
  apply readn_frame fd (b.length / 256 % 256) (b.length % 256) b rest buf bufsize _ _ hcap hs
  · rw [hin]; rfl
  · unfold ntohs; omega

/-- When the first `read` finds the end of the input, `readn` returns -1. -/
theorem readn_eof (fd : Fd) (buf : List Byte) (bufsize : Int) (hin : fd.inp = [])
    (hcap : (MAX_BLOCK_SIZE : Int) ≤ bufsize) :
    ∃ fd', readn fd buf bufsize = some (-1, buf, fd') := by
  rw [readn_eq]
  have h : ¬ bufsize < (MAX_BLOCK_SIZE : Int) := by omega
  rw [if_neg h]
  have h0 : (sysRead fd 1).1 ≠ 1 := by
    rcases sysRead_eof fd 1 hin with h | h <;> rw [h] <;> decide
  exact ⟨(sysRead fd 1).2.2, by rw [if_pos h0]⟩

/-! ## C strings -/

theorem cstr_append_zero (a t : List Byte) (h : ∀ x ∈ a, x ≠ 0) : cstr (a ++ 0 :: t) = a := by
  induction a with
  | nil => simp [cstr]
  | cons x xs ih =>
    have hx : x ≠ 0 := h x (List.mem_cons_self _ _)
    have hxs : ∀ y ∈ xs, y ≠ 0 := fun y hy => h y (List.mem_cons_of_mem _ hy)
    have hi := ih hxs
    unfold cstr at hi ⊢
    rw [List.cons_append, List.takeWhile_cons_of_pos (by simpa using hx), hi]

theorem cstr_ne_zero (a : List Byte) : ∀ x ∈ cstr a, x ≠ 0 := by
  intro x hx
  have := List.mem_takeWhile_imp hx
  simpa using this

theorem cstr_of_ne_zero (a : List Byte) (h : ∀ x ∈ a, x ≠ 0) : cstr a = a := by
  induction a with
  | nil => simp [cstr]
  | cons x xs ih =>
    have hx : x ≠ 0 := h x (List.mem_cons_self _ _)
    have hxs : ∀ y ∈ xs, y ≠ 0 := fun y hy => h y (List.mem_cons_of_mem _ hy)
    have hi := ih hxs
    unfold cstr at hi ⊢
    rw [List.takeWhile_cons_of_pos (by simpa using hx), hi]

theorem strcpy_eq (dst src : List Byte) :
    strcpy dst src = cstr src ++ 0 :: dst.drop ((cstr src).length + 1) := by
  simp [strcpy, store]

theorem cstr_strcpy (dst src : List Byte) : cstr (strcpy dst src) = cstr src := by
  rw [strcpy_eq, cstr_append_zero _ _ (cstr_ne_zero src)]

/-- Appending with `strcat` to an array that holds the string `a`. -/
theorem strcat_eq (a t src : List Byte) (h : ∀ x ∈ a, x ≠ 0) :
    strcat (a ++ 0 :: t) src = a ++ cstr src ++ 0 :: t.drop (cstr src).length := by
  unfold strcat strlen
  rw [cstr_append_zero a t h]
  unfold store
  simp [List.take_append_eq_append_take, List.drop_append_eq_append_drop]

/-- The calls `strcpy(a, x); strcat(a, y)` leave the string `x ++ y` in `a`. -/
theorem strcat_strcpy (dst x y : List Byte) :
    strcat (strcpy dst x) y
      = cstr x ++ cstr y ++ 0 :: (dst.drop ((cstr x).length + 1)).drop (cstr y).length := by
  rw [strcpy_eq, strcat_eq _ _ _ (cstr_ne_zero x)]

theorem cstr_strcat_strcpy (dst x y : List Byte) :
    cstr (strcat (strcpy dst x) y) = cstr x ++ cstr y := by
  rw [strcat_strcpy, cstr_append_zero]
  intro z hz
  rcases List.mem_append.mp hz with h | h
  · exact cstr_ne_zero x z h
  · exact cstr_ne_zero y z h

/-- Under a healthy write schedule a call of `writen` whose return value is
dropped sends the two bytes of the count and the first `N` bytes. -/
theorem send_healthy (fd : Fd) (p : List Byte) (N : Nat) (hN : N ≤ MAX_BLOCK_SIZE)
    (hs : Healthy fd.wsched) :
    ∃ ws, Healthy ws ∧
      send fd p (N : Int) =
        some { fd with out := fd.out ++ (htons (N : Int) ++ p.take N), wsched := ws } := by
  obtain ⟨ws, hws, he⟩ := writen_healthy fd p N hN hs
  exact ⟨ws, hws, by simp [send, he]⟩

/-- Sending a C string with its terminator: `writen(sock, a, strlen(a) + 1)`
on an array that holds the string `str`. -/
theorem send_string (fd : Fd) (str t : List Byte) (hz : ∀ x ∈ str, x ≠ 0)
    (hN : str.length + 1 ≤ MAX_BLOCK_SIZE) (hs : Healthy fd.wsched) :
    ∃ ws, Healthy ws ∧
      send fd (str ++ 0 :: t) ((strlen (str ++ 0 :: t) + 1 : Nat) : Int) =
        some { fd with out := fd.out ++ frame (str ++ [0]), wsched := ws } := by
  have hl : strlen (str ++ 0 :: t) = str.length := by
    unfold strlen; rw [cstr_append_zero _ _ hz]
  rw [hl]
  obtain ⟨ws, hws, he⟩ := send_healthy fd (str ++ 0 :: t) (str.length + 1) hN hs
  refine ⟨ws, hws, ?_⟩
  rw [he]
  have h1 : (str ++ 0 :: t).take (str.length + 1) = str ++ [0] := by
    simp [List.take_append_eq_append_take]
  have h2 : (str ++ [0]).length = str.length + 1 := by simp
  rw [h1, frame_eq (str ++ [0]) (by rw [h2]; unfold MAX_BLOCK_SIZE at hN; omega), h2]

/-! ## Requests as the server decodes them -/

/-- A request frame whose payload is the opcode `cmd`, the operand `name` and a
terminating NUL, as the client sends it: the server reads it, takes `cmd` as
the command and is left with the operand as the string in `buf`. -/
theorem Server.serveStep_request (s : Server) (cmd : Byte) (name rest : List Byte)
    (hcmd : cmd ≠ 0) (hname : ∀ x ∈ name, x ≠ 0) (hlen : name.length + 2 ≤ BUFSIZE)
    (hin : s.sock.inp = frame (cmd :: name ++ [0]) ++ rest) (hr : Healthy s.sock.rsched) :
    ∃ rs t, Healthy rs ∧
      s.serveStep =
        Server.dispatch
          { s with sock := { s.sock with inp := rest, rsched := rs }, buf := name ++ 0 :: t }
          cmd := by
  have hl : (cmd :: name ++ [0]).length = name.length + 2 := by simp
  obtain ⟨rs, hrs, he⟩ := readn_of_frame s.sock (cmd :: name ++ [0]) rest s.buf (BUFSIZE : Int)
    hin (by rw [hl]; unfold BUFSIZE at hlen; omega) (by decide) hr
  refine ⟨rs, 0 :: s.buf.drop (name.length + 2), hrs, ?_⟩
  unfold Server.serveStep
  rw [he]
  have hpos : ¬ (((cmd :: name ++ [0]).length : Nat) : Int) ≤ 0 := by rw [hl]; omega
  simp only [hpos, if_false]
  have hstr : strlen ((cmd :: name ++ [0]) ++ s.buf.drop (cmd :: name ++ [0]).length)
      = name.length + 1 := by
    unfold strlen
    have : (cmd :: name ++ [0]) ++ s.buf.drop (cmd :: name ++ [0]).length
        = (cmd :: name) ++ 0 :: s.buf.drop (cmd :: name ++ [0]).length := by simp
    rw [this, cstr_append_zero]
    · simp
    · intro x hx
      rcases List.mem_cons.mp hx with h | h
      · rw [h]; exact hcmd
      · exact hname x h
  rw [hstr, hl]
  congr 1
  · congr 1
    simp [store, List.take_append_eq_append_take]

theorem cstr_lit_G : cstr (lit "G") = ['G'.toNat] := by decide
theorem cstr_lit_U : cstr (lit "U") = ['U'.toNat] := by decide
theorem cstr_lit_0 : cstr (lit "0") = ['0'.toNat] := by decide
theorem cstr_lit_1 : cstr (lit "1") = ['1'.toNat] := by decide

/-- The two-character status string that the `G` and `U` branches build with
`strcpy(response, op); strcat(response, digit)`, and its transmission. -/
theorem send_status (fd : Fd) (junk op digit : List Byte) (a b : Byte)
    (hop : cstr op = [a]) (hdigit : cstr digit = [b]) (hs : Healthy fd.wsched) :
    (strcat (strcpy junk op) digit).getD 1 0 = b ∧
    ∃ ws, Healthy ws ∧
      send fd (strcat (strcpy junk op) digit)
          ((strlen (strcat (strcpy junk op) digit) + 1 : Nat) : Int) =
        some { fd with out := fd.out ++ frame [a, b, 0], wsched := ws } := by
  have hne : ∀ x ∈ [a, b], x ≠ 0 := by
    intro x hx
    rcases List.mem_cons.mp hx with h | h
    · rw [h]; exact cstr_ne_zero op a (by rw [hop]; exact List.mem_cons_self _ _)
    · rw [List.mem_singleton] at h
      rw [h]; exact cstr_ne_zero digit b (by rw [hdigit]; exact List.mem_cons_self _ _)
  rw [strcat_strcpy, hop, hdigit]
  refine ⟨by simp, ?_⟩
  exact send_string fd [a, b] _ hne (by unfold MAX_BLOCK_SIZE; simp) hs

/-- The `G` branch of the server's `getFile` on an operand `name`: one status
frame, and nothing else changes. -/
theorem Server.getFile_G (s0 : Server) (name t : List Byte) (hname : ∀ x ∈ name, x ≠ 0)
    (hw : Healthy s0.sock.wsched) :
    ∃ ws f, Healthy ws ∧
      Server.getFile s0 (name ++ 0 :: t) 'G'.toNat =
        some { s0 with
          sock := { s0.sock with
            out := s0.sock.out
              ++ frame ['G'.toNat, if s0.dir.access name then '0'.toNat else '1'.toNat, 0],
            wsched := ws },
          filename := f } := by
  unfold Server.getFile
  dsimp only
  rw [cstr_strcpy, cstr_append_zero name t hname, if_pos rfl]
  by_cases hacc : s0.dir.access name = true
  · obtain ⟨_, ws, hws, he⟩ :=
      send_status s0.sock s0.junk (lit "G") (lit "0") _ _ cstr_lit_G cstr_lit_0 hw
    refine ⟨ws, strcpy s0.filename (strcpy s0.junk (name ++ 0 :: t)), hws, ?_⟩
    simp only [hacc, if_true, he]
  · obtain ⟨_, ws, hws, he⟩ :=
      send_status s0.sock s0.junk (lit "G") (lit "1") _ _ cstr_lit_G cstr_lit_1 hw
    refine ⟨ws, s0.filename, hws, ?_⟩
    have hacc' : s0.dir.access name = false := by simpa using hacc
    simp only [hacc', Bool.false_eq_true, if_false, he]

/-! ## The client's exchanges -/

/-- One exchange of the client: `writen(sock, send, strlen(send) + 1)` on an
array holding the string `str`, then `readn(sock, response, sizeof(response))`
when the server's answer is the frame with payload `reply`. -/
theorem Client.exchange (fd : Fd) (str t reply rest junk : List Byte)
    (hz : ∀ x ∈ str, x ≠ 0) (hN : str.length + 1 ≤ MAX_BLOCK_SIZE)
    (hin : fd.inp = frame reply ++ rest) (hreply : reply.length < 65536)
    (hr : Healthy fd.rsched) (hw : Healthy fd.wsched) :
    ∃ ws rs, Healthy ws ∧ Healthy rs ∧
      send fd (str ++ 0 :: t) ((strlen (str ++ 0 :: t) + 1 : Nat) : Int) =
        some { fd with out := fd.out ++ frame (str ++ [0]), wsched := ws } ∧
      readn { fd with out := fd.out ++ frame (str ++ [0]), wsched := ws } junk (BUFSIZE : Int) =
        some ((reply.length : Int), reply ++ junk.drop reply.length,
          { inp := rest, rsched := rs, out := fd.out ++ frame (str ++ [0]), wsched := ws }) := by
  obtain ⟨ws, hws, he⟩ := send_string fd str t hz hN hw
  obtain ⟨rs, hrs, he'⟩ := readn_of_frame
    { fd with out := fd.out ++ frame (str ++ [0]), wsched := ws } reply rest junk (BUFSIZE : Int)
    hin hreply (by decide) hr
  exact ⟨ws, rs, hws, hrs, he, he'⟩

/-- The client's `getFile` when the local file is absent and the server
answers `G1`: the request frame is all the client sends, no file is opened and
the client reports that the file does not exist. -/
theorem Client.getFile_refused (c : Client) (str t rest : List Byte)
    (token : List (Option (List Byte)))
    (hz : ∀ x ∈ str, x ≠ 0) (hN : str.length + 1 ≤ MAX_BLOCK_SIZE)
    (hloc : c.dir.access (cstr (Client.tok token 1)) = false)
    (hin : c.sock.inp = frame (lit "G1" ++ [0]) ++ rest)
    (hr : Healthy c.sock.rsched) (hw : Healthy c.sock.wsched) :
    ∃ ws rs, Healthy ws ∧ Healthy rs ∧
      Client.getFile c (str ++ 0 :: t) token =
        some { c with
          sock := { inp := rest, rsched := rs, out := c.sock.out ++ frame (str ++ [0]),
                    wsched := ws },
          stdout := c.stdout ++ ["File does not exist in the current server directory!\n"] } := by
  obtain ⟨ws, rs, hws, hrs, he, he'⟩ := Client.exchange c.sock str t (lit "G1" ++ [0]) rest c.junk
    hz hN hin (by decide) hr hw
  refine ⟨ws, rs, hws, hrs, ?_⟩
  unfold Client.getFile
  rw [hloc]
  simp only [Bool.false_eq_true, if_false, he, he']
  have h1 : ((lit "G1" ++ [0]) ++ c.junk.drop (lit "G1" ++ [0]).length).getD 1 0 = '1'.toNat :=
    rfl
  have h0 : ¬ ((lit "G1" ++ [0]) ++ c.junk.drop (lit "G1" ++ [0]).length).getD 1 0 = '0'.toNat := by
    rw [h1]; decide
  rw [if_neg h0, if_pos h1]

/-- The client's `sendFile` when the local file exists and the server answers
`U1`: the request frame is all the client sends, no file is opened and the
client reports that the file exists on the server. -/
theorem Client.sendFile_refused (c : Client) (str t rest : List Byte)
    (token : List (Option (List Byte)))
    (hz : ∀ x ∈ str, x ≠ 0) (hN : str.length + 1 ≤ MAX_BLOCK_SIZE)
    (hloc : c.dir.access (cstr (Client.tok token 1)) = true)
    (hin : c.sock.inp = frame (lit "U1" ++ [0]) ++ rest)
    (hr : Healthy c.sock.rsched) (hw : Healthy c.sock.wsched) :
    ∃ ws rs, Healthy ws ∧ Healthy rs ∧
      Client.sendFile c (str ++ 0 :: t) token =
        some { c with
          sock := { inp := rest, rsched := rs, out := c.sock.out ++ frame (str ++ [0]),
                    wsched := ws },
          stdout := c.stdout ++ ["File already exists on the server!\n"] } := by
  obtain ⟨ws, rs, hws, hrs, he, he'⟩ := Client.exchange c.sock str t (lit "U1" ++ [0]) rest c.junk
    hz hN hin (by decide) hr hw
  refine ⟨ws, rs, hws, hrs, ?_⟩
  unfold Client.sendFile
  rw [hloc]
  simp only [not_true_eq_false, if_false, he, he']
  have h1 : ((lit "U1" ++ [0]) ++ c.junk.drop (lit "U1" ++ [0]).length).getD 1 0 = '1'.toNat :=
    rfl
  have h0 : ¬ ((lit "U1" ++ [0]) ++ c.junk.drop (lit "U1" ++ [0]).length).getD 1 0 = '0'.toNat := by
    rw [h1]; decide
  rw [if_neg h0, if_pos h1]

/-- The `U` branch of the server's `putFile` on an operand `name` that exists:
one status frame `U1`, and nothing else changes. -/
theorem Server.putFile_U_refused (s0 : Server) (name t : List Byte)
    (hname : ∀ x ∈ name, x ≠ 0) (hacc : s0.dir.access name = true)
    (hw : Healthy s0.sock.wsched) :
    ∃ ws, Healthy ws ∧
      Server.putFile s0 (name ++ 0 :: t) 'U'.toNat =
        some { s0 with sock := { s0.sock with
          out := s0.sock.out ++ frame ['U'.toNat, '1'.toNat, 0], wsched := ws } } := by
  unfold Server.putFile
  dsimp only
  rw [cstr_strcpy, cstr_append_zero name t hname, if_pos rfl, hacc]
  obtain ⟨h1, ws, hws, he⟩ :=
    send_status s0.sock s0.junk (lit "U") (lit "1") _ _ cstr_lit_U cstr_lit_1 hw
  refine ⟨ws, hws, ?_⟩
  simp only [if_true, he, h1]
  have : ¬ '1'.toNat = '0'.toNat := by decide
  rw [if_neg this]

/-- The command `get name` of the client calls `getFile` with the string
`G<name>` in `send`. -/
theorem Client.serverCommands_get (c : Client) (name : List Byte) (hname : ∀ x ∈ name, x ≠ 0) :
    ∃ t, Client.serverCommands c [some (lit "get"), some name, none] =
      Client.getFile c (('G'.toNat :: name) ++ 0 :: t) [some (lit "get"), some name, none] := by
  refine ⟨(c.junk.drop ((cstr (lit "G")).length + 1)).drop (cstr name).length, ?_⟩
  unfold Client.serverCommands
  have e0 : cstr (Client.tok [some (lit "get"), some name, none] 0) = lit "get" := by
    show cstr (lit "get") = lit "get"
    decide
  have n1 : Client.isNull [some (lit "get"), some name, none] 1 = false := rfl
  have n2 : Client.isNull [some (lit "get"), some name, none] 2 = true := rfl
  have t1 : Client.tok [some (lit "get"), some name, none] 1 = name := rfl
  have d1 : ¬ lit "get" = lit "pwd" := by decide
  have d2 : ¬ lit "get" = lit "dir" := by decide
  have d3 : ¬ lit "get" = lit "cd" := by decide
  rw [e0, n1, n2, t1]
  simp only [d1, d2, d3, false_and, if_false, true_and, if_true, Bool.false_eq_true,
    not_false_eq_true]
  rw [strcat_strcpy, cstr_lit_G, cstr_of_ne_zero name hname]
  rfl

/-- The command `put name` of the client calls `sendFile` with the string
`U<name>` in `send`. -/
theorem Client.serverCommands_put (c : Client) (name : List Byte) (hname : ∀ x ∈ name, x ≠ 0) :
    ∃ t, Client.serverCommands c [some (lit "put"), some name, none] =
      Client.sendFile c (('U'.toNat :: name) ++ 0 :: t) [some (lit "put"), some name, none] := by
  refine ⟨(c.junk.drop ((cstr (lit "U")).length + 1)).drop (cstr name).length, ?_⟩
  unfold Client.serverCommands
  have e0 : cstr (Client.tok [some (lit "put"), some name, none] 0) = lit "put" := by
    show cstr (lit "put") = lit "put"
    decide
  have n1 : Client.isNull [some (lit "put"), some name, none] 1 = false := rfl
  have n2 : Client.isNull [some (lit "put"), some name, none] 2 = true := rfl
  have t1 : Client.tok [some (lit "put"), some name, none] 1 = name := rfl
  have d1 : ¬ lit "put" = lit "pwd" := by decide
  have d2 : ¬ lit "put" = lit "dir" := by decide
  have d3 : ¬ lit "put" = lit "cd" := by decide
  have d4 : ¬ lit "put" = lit "get" := by decide
  rw [e0, n1, n2, t1]
  simp only [d1, d2, d3, d4, false_and, if_false, true_and, if_true, Bool.false_eq_true,
    not_false_eq_true]
  rw [strcat_strcpy, cstr_lit_U, cstr_of_ne_zero name hname]
  rfl

/-! ## The transfer loops -/

theorem frame_length (b : List Byte) : (frame b).length = b.length + 2 := rfl

/-- A file that fits one block leaves the sending loop as one frame. -/
theorem sendLoop_single (block fuel : Nat) (fd : Fd) (file : List Byte)
    (hpos : 0 < file.length) (hfit : file.length ≤ block) (hmax : file.length ≤ MAX_BLOCK_SIZE)
    (hfuel : 0 < fuel) (hw : Healthy fd.wsched) :
    ∃ ws, Healthy ws ∧
      sendLoop block fuel fd file = some { fd with out := fd.out ++ frame file, wsched := ws } := by
  obtain ⟨k, rfl⟩ : ∃ k, fuel = k + 1 := ⟨fuel - 1, by omega⟩
  have htake : file.take block = file := List.take_of_length_le hfit
  have hdrop : file.drop block = [] := List.drop_of_length_le hfit
  obtain ⟨ws, hws, he⟩ := send_healthy fd file file.length hmax hw
  refine ⟨ws, hws, ?_⟩
  unfold sendLoop
  rw [htake, hdrop, if_pos hpos, he]
  have hfr : htons (file.length : Int) ++ file.take file.length = frame file := by
    rw [List.take_length, frame_eq file (by unfold MAX_BLOCK_SIZE at hmax; omega)]
  rw [hfr]
  cases k <;> simp [sendLoop]

/-- The receiving loop on a frame of at least `BUFSIZE-2` bytes followed by a
shorter one: it takes both for the file. -/
theorem recvLoop_two (fuel : Nat) (sock : Fd) (buf written b1 b2 rest : List Byte)
    (hin : sock.inp = frame b1 ++ (frame b2 ++ rest))
    (h1 : BUFSIZE - 2 ≤ b1.length) (h1' : b1.length < 65536)
    (h2 : 0 < b2.length) (h2' : b2.length < BUFSIZE - 2)
    (hfuel : 2 ≤ fuel) (hr : Healthy sock.rsched) :
    ∃ rs, Healthy rs ∧
      recvLoop fuel sock buf written
        = some ({ sock with inp := rest, rsched := rs }, written ++ b1 ++ b2) := by
  obtain ⟨k, rfl⟩ : ∃ k, fuel = k + 2 := ⟨fuel - 2, by omega⟩
  obtain ⟨rs1, hrs1, he1⟩ := readn_of_frame sock b1 (frame b2 ++ rest) buf (BUFSIZE : Int) hin h1'
    (by decide) hr
  obtain ⟨rs2, hrs2, he2⟩ := readn_of_frame
    { sock with inp := frame b2 ++ rest, rsched := rs1 } b2 rest
    (store (b1 ++ buf.drop b1.length) b1.length [0]) (BUFSIZE : Int) rfl
    (by unfold BUFSIZE at h2'; omega) (by decide) hrs1
  refine ⟨rs2, hrs2, ?_⟩
  unfold recvLoop
  rw [he1]
  have p1 : (0 : Int) < (b1.length : Int) := by unfold BUFSIZE at h1; omega
  have n1 : ¬ (b1.length : Int) < (BUFSIZE : Int) - 2 := by unfold BUFSIZE at h1 ⊢; omega
  simp only [p1, if_true, n1, if_false, Int.toNat_ofNat]
  unfold recvLoop
  rw [he2]
  have p2 : (0 : Int) < (b2.length : Int) := by omega
  have n2 : (b2.length : Int) < (BUFSIZE : Int) - 2 := by unfold BUFSIZE at h2' ⊢; omega
  simp only [p2, if_true, n2, Int.toNat_ofNat, List.take_left]

/-- The `U` branch of the server's `putFile` on an operand `name` that does not
exist and that `open` accepts: the status frame `U0`, then the receiving loop;
what the loop has written is the new file. -/
theorem Server.putFile_U_accepted (s0 : Server) (name t : List Byte)
    (hname : ∀ x ∈ name, x ≠ 0) (hacc : s0.dir.access name = false)
    (hden : name ∉ s0.dir.denied) (hw : Healthy s0.sock.wsched) :
    ∃ ws, Healthy ws ∧ ∀ sock2 written,
      recvLoop (s0.sock.inp.length + 1)
          { s0.sock with out := s0.sock.out ++ frame ['U'.toNat, '0'.toNat, 0], wsched := ws }
          (strcpy s0.junk (name ++ 0 :: t)) [] = some (sock2, written) →
      Server.putFile s0 (name ++ 0 :: t) 'U'.toNat =
        some { s0 with sock := sock2, opened := s0.opened ++ [name],
                       dir := s0.dir.put name written } := by
  obtain ⟨h1, ws, hws, he⟩ :=
    send_status s0.sock s0.junk (lit "U") (lit "0") _ _ cstr_lit_U cstr_lit_0 hw
  refine ⟨ws, hws, ?_⟩
  intro sock2 written hloop
  unfold Server.putFile
  dsimp only
  rw [cstr_strcpy, cstr_append_zero name t hname, if_pos rfl, hacc]
  simp only [Bool.false_eq_true, if_false, he, h1, if_true]
  rw [hloop]
  have hname' : cstr (strcpy s0.junk (strcpy s0.junk (name ++ 0 :: t))) = name := by
    rw [cstr_strcpy, cstr_strcpy, cstr_append_zero name t hname]
  have hlook : s0.dir.files.lookup name = none := by
    unfold Dir.access at hacc
    cases h : s0.dir.files.lookup name with
    | none => rfl
    | some v => rw [h] at hacc; simp at hacc
  simp only [hname', Dir.openCreate, hden, if_false, hlook, Option.getD_none, overwrite, store,
    List.take_zero, List.nil_append, List.drop_nil, List.append_nil]

/-- The client's `sendFile` when the server answers `U0` and the local file
fits one block of `BUFSIZE-1` bytes: the request frame, then the file as one
frame. -/
theorem Client.sendFile_accepted_single (c : Client) (str t rest file : List Byte)
    (token : List (Option (List Byte)))
    (hz : ∀ x ∈ str, x ≠ 0) (hN : str.length + 1 ≤ MAX_BLOCK_SIZE)
    (hloc : c.dir.access (cstr (Client.tok token 1)) = true)
    (hopen : c.dir.openRead (cstr (Client.tok token 1)) = some file)
    (hpos : 0 < file.length) (hfit : file.length ≤ BUFSIZE - 1)
    (hin : c.sock.inp = frame (lit "U0" ++ [0]) ++ rest)
    (hr : Healthy c.sock.rsched) (hw : Healthy c.sock.wsched) :
    ∃ ws rs, Healthy ws ∧ Healthy rs ∧
      Client.sendFile c (str ++ 0 :: t) token =
        some { c with
          sock := { inp := rest, rsched := rs,
                    out := c.sock.out ++ frame (str ++ [0]) ++ frame file, wsched := ws },
          opened := c.opened ++ [cstr (Client.tok token 1)],
          stdout := c.stdout ++ ["File successfully sent to server\n"] } := by
  obtain ⟨ws, rs, hws, hrs, he, he'⟩ := Client.exchange c.sock str t (lit "U0" ++ [0]) rest c.junk
    hz hN hin (by decide) hr hw
  obtain ⟨ws', hws', hl⟩ := sendLoop_single (BUFSIZE - 1) file.length
    { inp := rest, rsched := rs, out := c.sock.out ++ frame (str ++ [0]), wsched := ws } file
    hpos hfit (by unfold BUFSIZE at hfit; unfold MAX_BLOCK_SIZE; omega) hpos hws
  refine ⟨ws', rs, hws', hrs, ?_⟩
  unfold Client.sendFile
  rw [hloc]
  simp only [not_true_eq_false, if_false, he, he']
  have h0 : ((lit "U0" ++ [0]) ++ c.junk.drop (lit "U0" ++ [0]).length).getD 1 0 = '0'.toNat :=
    rfl
  rw [if_pos h0, hopen]
  simp only [hl]

/-- The server's iteration on a `U` request for a new file when the next two
frames on the connection hold at least `BUFSIZE-2` bytes and fewer: both
payloads end up in the file. -/
theorem Server.serveStep_upload_two (s : Server) (name b1 b2 rest : List Byte)
    (hname : ∀ x ∈ name, x ≠ 0) (hlen : name.length + 2 ≤ BUFSIZE)
    (hacc : s.dir.access name = false) (hden : name ∉ s.dir.denied)
    (hin : s.sock.inp = frame ('U'.toNat :: name ++ [0]) ++ (frame b1 ++ (frame b2 ++ rest)))
    (h1 : BUFSIZE - 2 ≤ b1.length) (h1' : b1.length < 65536)
    (h2 : 0 < b2.length) (h2' : b2.length < BUFSIZE - 2)
    (hr : Healthy s.sock.rsched) (hw : Healthy s.sock.wsched) :
    ∃ s', s.serveStep = some (Outcome.awaiting s') ∧
      s'.dir = s.dir.put name (b1 ++ b2) ∧ s'.sock.inp = rest ∧
      s'.sock.out = s.sock.out ++ frame (lit "U0" ++ [0]) ∧
      s'.opened = s.opened ++ [name] := by
  obtain ⟨rs, t, hrs, he⟩ := s.serveStep_request 'U'.toNat name _ (by decide) hname hlen hin hr
  obtain ⟨ws, _, hp⟩ := Server.putFile_U_accepted
    { s with sock := { s.sock with inp := frame b1 ++ (frame b2 ++ rest), rsched := rs },
             buf := name ++ 0 :: t }
    name t hname hacc hden hw
  obtain ⟨rs', _, hl⟩ := recvLoop_two ((frame b1 ++ (frame b2 ++ rest)).length + 1)
    { inp := frame b1 ++ (frame b2 ++ rest), rsched := rs,
      out := s.sock.out ++ frame ['U'.toNat, '0'.toNat, 0], wsched := ws }
    (strcpy s.junk (name ++ 0 :: t)) [] b1 b2 rest rfl h1 h1' h2 h2'
    (by rw [List.length_append, frame_length]; omega) hrs
  have hp' := hp _ _ hl
  rw [he]
  unfold Server.dispatch
  have d1 : ¬ 'U'.toNat = 'P'.toNat := by decide
  have d2 : ¬ 'U'.toNat = 'D'.toNat := by decide
  have d3 : ¬ 'U'.toNat = 'C'.toNat := by decide
  have d4 : ¬ ('U'.toNat = 'G'.toNat ∨ 'U'.toNat = 'H'.toNat) := by decide
  rw [if_neg d1, if_neg d2, if_neg d3, if_neg d4, if_pos (Or.inl rfl), hp']
  exact ⟨_, rfl, by simp, rfl, rfl, rfl⟩

/-! ## Every iteration of the server's loop returns -/

theorem send_total (fd : Fd) (buf : List Byte) (nbytes : Int) :
    (send fd buf nbytes).isSome = true := by
  unfold send
  rw [Option.isSome_map']
  exact writen_total fd buf nbytes

theorem send_ne_none (fd : Fd) (buf : List Byte) (nbytes : Int) : send fd buf nbytes ≠ none := by
  intro h
  have := send_total fd buf nbytes
  rw [h] at this
  exact absurd this (by simp)

/-- The sending loop returns when its fuel covers the bytes of the file. -/
theorem sendLoop_total (block : Nat) :
    ∀ (fuel : Nat) (fd : Fd) (file : List Byte), file.length ≤ fuel →
      (sendLoop block fuel fd file).isSome = true := by
  intro fuel
  induction fuel with
  | zero =>
    intro fd file hf
    have : file = [] := List.eq_nil_of_length_eq_zero (by omega)
    subst this
    simp [sendLoop]
  | succ fuel ih =>
    intro fd file hf
    unfold sendLoop
    by_cases hpos : 0 < (file.take block).length
    · rw [if_pos hpos]
      obtain ⟨fd1, h1⟩ := Option.isSome_iff_exists.mp
        (send_total fd (file.take block) ((file.take block).length : Int))
      rw [h1]
      apply ih
      rw [List.length_take] at hpos
      rw [List.length_drop]
      omega
    · rw [if_neg hpos]; rfl

/-- A call of `read` never adds to the pending input, and a call that returns
1 has taken one byte of it. -/
theorem sysRead_inp (fd : Fd) (count : Nat) :
    (sysRead fd count).2.2.inp.length ≤ fd.inp.length ∧
    ((sysRead fd count).1 = 1 → (sysRead fd count).2.2.inp.length + 1 = fd.inp.length) := by
  unfold sysRead
  cases h : fd.rsched with
  | nil =>
    simp only [List.length_drop, List.length_take]
    constructor <;> omega
  | cons r rs =>
    by_cases hr : r < 0
    · simp only [hr, if_true]
      constructor
      · exact le_refl _
      · intro h1; exact absurd h1 (by decide)
    · simp only [hr, if_false, List.length_drop, List.length_take]
      constructor <;> omega

/-- The loop of `readn` never adds to the pending input. -/
theorem readLoop_inp (len : Nat) :
    ∀ (fuel : Nat) (fd : Fd) (buf : List Byte) (n : Nat) (r : Int) (buf' : List Byte) (fd' : Fd),
      readLoop len fuel fd buf n = some (r, buf', fd') → fd'.inp.length ≤ fd.inp.length := by
  intro fuel
  induction fuel with
  | zero =>
    intro fd buf n r buf' fd' h
    unfold readLoop at h
    by_cases hlt : n < len
    · simp [hlt] at h
    · simp only [hlt, if_false, Option.some.injEq, Prod.mk.injEq] at h
      rw [← h.2.2]
  | succ fuel ih =>
    intro fd buf n r buf' fd' h
    unfold readLoop at h
    by_cases hlt : n < len
    · simp only [hlt, if_true] at h
      have hle := (sysRead_inp fd (len - n)).1
      by_cases hnr : (sysRead fd (len - n)).1 ≤ 0
      · simp only [hnr, if_true, Option.some.injEq, Prod.mk.injEq] at h
        rw [← h.2.2]; exact hle
      · simp only [hnr, if_false] at h
        exact le_trans (ih _ _ _ _ _ _ h) hle
    · simp only [hlt, if_false, Option.some.injEq, Prod.mk.injEq] at h
      rw [← h.2.2]

/-- A call of `readn` that returns a positive value has taken at least the two
length bytes from the pending input. -/
theorem readn_inp (fd : Fd) (buf : List Byte) (bufsize r : Int) (buf' : List Byte) (fd' : Fd)
    (h : readn fd buf bufsize = some (r, buf', fd')) (hpos : 0 < r) :
    fd'.inp.length + 2 ≤ fd.inp.length := by
  rw [readn_eq] at h
  by_cases h0 : bufsize < (MAX_BLOCK_SIZE : Int)
  · rw [if_pos h0] at h
    simp only [Option.some.injEq, Prod.mk.injEq] at h
    omega
  · rw [if_neg h0] at h
    by_cases h1 : (sysRead fd 1).1 ≠ 1
    · rw [if_pos h1] at h
      simp only [Option.some.injEq, Prod.mk.injEq] at h
      omega
    · rw [if_neg h1] at h
      by_cases h2 : (sysRead (sysRead fd 1).2.2 1).1 ≠ 1
      · rw [if_pos h2] at h
        simp only [Option.some.injEq, Prod.mk.injEq] at h
        omega
      · rw [if_neg h2] at h
        have e1 := (sysRead_inp fd 1).2 (not_not.mp h1)
        have e2 := (sysRead_inp (sysRead fd 1).2.2 1).2 (not_not.mp h2)
        have e3 := readLoop_inp _ _ _ _ _ _ _ _ h
        omega

/-- The receiving loop returns when its fuel exceeds the pending input. -/
theorem recvLoop_total :
    ∀ (fuel : Nat) (sock : Fd) (buf written : List Byte), sock.inp.length < fuel →
      (recvLoop fuel sock buf written).isSome = true := by
  intro fuel
  induction fuel with
  | zero => intro sock buf written hf; omega
  | succ fuel ih =>
    intro sock buf written hf
    unfold recvLoop
    obtain ⟨⟨n, buf1, sock1⟩, h1⟩ := Option.isSome_iff_exists.mp
      (readn_total sock buf (BUFSIZE : Int))
    rw [h1]
    by_cases hpos : 0 < n
    · simp only [hpos, if_true]
      by_cases hshort : n < (BUFSIZE : Int) - 2
      · simp [hshort]
      · simp only [hshort, if_false]
        apply ih
        have := readn_inp sock buf (BUFSIZE : Int) n buf1 sock1 h1 hpos
        omega
    · simp [hpos]

theorem sendLoop_ne_none (block : Nat) (fd : Fd) (file : List Byte) :
    sendLoop block file.length fd file ≠ none := by
  intro h
  have := sendLoop_total block file.length fd file (le_refl _)
  rw [h] at this
  exact absurd this (by simp)

theorem recvLoop_ne_none (sock : Fd) (buf written : List Byte) :
    recvLoop (sock.inp.length + 1) sock buf written ≠ none := by
  intro h
  have := recvLoop_total (sock.inp.length + 1) sock buf written (Nat.lt_succ_self _)
  rw [h] at this
  exact absurd this (by simp)

/-- The server's `getFile` returns. -/
theorem Server.getFile_total (s : Server) (loc_buf : List Byte) (command : Byte) :
    (Server.getFile s loc_buf command).isSome = true := by
  unfold Server.getFile
  dsimp only
  repeat' split
  all_goals first
    | rfl
    | (rename_i h; exact absurd h (send_ne_none _ _ _))
    | (rename_i h; exact absurd h (sendLoop_ne_none _ _ _))

/-- The server's `putFile` returns. -/
theorem Server.putFile_total (s : Server) (loc_buf : List Byte) (command : Byte) :
    (Server.putFile s loc_buf command).isSome = true := by
  unfold Server.putFile
  dsimp only
  repeat' split
  all_goals first
    | rfl
    | (rename_i h; exact absurd h (send_ne_none _ _ _))
    | (rename_i h; exact absurd h (recvLoop_ne_none _ _ _))

/-- The dispatch on the command returns. -/
theorem Server.dispatch_total (s0 : Server) (command : Byte) :
    (Server.dispatch s0 command).isSome = true := by
  unfold Server.dispatch
  dsimp only
  repeat' split
  all_goals first
    | rfl
    | (rename_i h; exact absurd h (send_ne_none _ _ _))
    | (rw [Option.isSome_map']; exact Server.getFile_total _ _ _)
    | (rw [Option.isSome_map']; exact Server.putFile_total _ _ _)

/-- Every iteration of the loop of `serveClient` returns: it ends in `exit(1)`
or back at the head of the loop. -/
theorem Server.serveStep_total (s : Server) : (Server.serveStep s).isSome = true := by
  unfold Server.serveStep
  obtain ⟨⟨nr, buf0, sock0⟩, h⟩ := Option.isSome_iff_exists.mp
    (readn_total s.sock s.buf (BUFSIZE : Int))
  rw [h]
  dsimp only
  split
  · rfl
  · exact Server.dispatch_total _ _

/-! ## The frame codec -/

/-- C1 (frame round trip). Let `b` be a byte sequence with `0 < len(b) ≤ 5120`
and let `writen(fd, b, len(b))` succeed, that is return `len(b)`, whatever the
outcome of the single `write` calls was. If `readn` runs with a capacity of at
least 5120 on the bytes `w` this call has put on the stream (followed by any
other bytes `rest`), and every `read` delivers at least one byte, however few,
then `readn` returns `len(b)`, the first `len(b)` bytes of the buffer are `b`,
and exactly the bytes of the frame have been consumed. -/
theorem readn_writen_round_trip (b : List Byte) (hpos : 0 < b.length)
    (hmax : b.length ≤ MAX_BLOCK_SIZE) (wfd wfd' : Fd)
    (hw : writen wfd b (b.length : Int) = some ((b.length : Int), wfd'))
    (w : List Byte) (hwire : wfd'.out = wfd.out ++ w)
    (rfd : Fd) (rest : List Byte) (hin : rfd.inp = w ++ rest) (hr : Healthy rfd.rsched)
    (buf : List Byte) (bufsize : Int) (hcap : (MAX_BLOCK_SIZE : Int) ≤ bufsize) :
    ∃ buf' rfd', readn rfd buf bufsize = some ((b.length : Int), buf', rfd') ∧
      buf'.take b.length = b ∧ rfd'.inp = rest := by
  have hN : b.length < 65536 := by unfold MAX_BLOCK_SIZE at hmax; omega
  have hw' : w = frame b := by
    rw [writen_eq] at hw
    have h : ¬ (b.length : Int) > (MAX_BLOCK_SIZE : Int) := by omega
    rw [if_neg h] at hw
    by_cases h0 : (sysWrite wfd (htons (b.length : Int)) 1).1 ≠ 1
    · rw [if_pos h0] at hw
      simp only [Option.some.injEq, Prod.mk.injEq] at hw
      omega
    · rw [if_neg h0] at hw
      by_cases h1 : (sysWrite (sysWrite wfd (htons (b.length : Int)) 1).2
          ((htons (b.length : Int)).drop 1) 1).1 ≠ 1
      · rw [if_pos h1] at hw
        simp only [Option.some.injEq, Prod.mk.injEq] at hw
        omega
      · rw [if_neg h1] at hw
        rw [Int.toNat_ofNat] at hw
        obtain ⟨_, hout, _, _⟩ := writeLoop_success b b.length b.length _ 0 _ _ (by omega) hw
          (by omega)
        have hout0 : (sysWrite wfd (htons (b.length : Int)) 1).2.out
            = wfd.out ++ (htons (b.length : Int)).take 1 := by
          rcases sysWrite_cases wfd (htons (b.length : Int)) 1 with ⟨he, _⟩ | ⟨k, hk, hret, ho⟩
          · rw [he] at h0; exact absurd (by decide) h0
          · have : k = 1 := by
              by_contra hne
              apply h0
              rw [hret]
              omega
            subst this
            exact ho
        have hout1 : (sysWrite (sysWrite wfd (htons (b.length : Int)) 1).2
            ((htons (b.length : Int)).drop 1) 1).2.out
            = (sysWrite wfd (htons (b.length : Int)) 1).2.out
                ++ ((htons (b.length : Int)).drop 1).take 1 := by
          rcases sysWrite_cases (sysWrite wfd (htons (b.length : Int)) 1).2
            ((htons (b.length : Int)).drop 1) 1 with ⟨he, _⟩ | ⟨k, hk, hret, ho⟩
          · rw [he] at h1; exact absurd (by decide) h1
          · have : k = 1 := by
              by_contra hne
              apply h1
              rw [hret]
              omega
            subst this
            exact ho
        have hfin : wfd.out ++ w = wfd.out ++ frame b := by
          rw [← hwire, hout, hout1, hout0, frame_eq b hN]
          simp [htons]
        exact List.append_cancel_left hfin
  obtain ⟨rs, _, he⟩ := readn_of_frame rfd b rest buf bufsize (by rw [hin, hw']) hN hcap hr
  exact ⟨_, _, he, by simp, rfl⟩

/-- Witness of C1: the payload 7, 8, 9 is sent with the partial writes 1, 1, 2, 1
and read back with the partial reads 1, 1, 2, 1. -/
theorem readn_writen_round_trip_witness :
    writen ⟨[], [], [], [1, 1, 2, 1]⟩ [7, 8, 9] 3 = some (3, ⟨[], [], [0, 3, 7, 8, 9], []⟩) ∧
    ∃ buf' rfd', readn ⟨[0, 3, 7, 8, 9], [1, 1, 2, 5], [], []⟩ (List.replicate 8 0) 5120
        = some (3, buf', rfd') ∧ buf'.take 3 = [7, 8, 9] ∧ rfd'.inp = [] :=
  ⟨by decide,
   readn_writen_round_trip [7, 8, 9] (by decide) (by decide) ⟨[], [], [], [1, 1, 2, 1]⟩
    ⟨[], [], [0, 3, 7, 8, 9], []⟩ (by decide) [0, 3, 7, 8, 9] rfl
    ⟨[0, 3, 7, 8, 9], [1, 1, 2, 5], [], []⟩ [] rfl (by unfold Healthy; decide)
    (List.replicate 8 0) 5120 (by decide)⟩

/-- C2 (too large). For every `nbytes > 5120` and every descriptor and buffer,
`writen` returns -3 and leaves the descriptor as it was: no byte of the length
prefix or of the payload has been written and no `write` call has been made. -/
theorem writen_too_large (fd : Fd) (buf : List Byte) (nbytes : Int)
    (h : (MAX_BLOCK_SIZE : Int) < nbytes) :
    writen fd buf nbytes = some (-3, fd) := by
  rw [writen_eq, if_pos h]

/-- Witness of C2: a request for 5121 bytes. -/
theorem writen_too_large_witness :
    ((MAX_BLOCK_SIZE : Int) < 5121) ∧
    writen ⟨[], [], [4, 2], [3]⟩ (List.replicate 5121 0) 5121 = some (-3, ⟨[], [], [4, 2], [3]⟩) :=
  ⟨by decide, writen_too_large ⟨[], [], [4, 2], [3]⟩ (List.replicate 5121 0) 5121 (by decide)⟩

/-- C3 (wire format). For every byte sequence `b` with `0 < len(b) ≤ 5120` and
every schedule of partial writes that accept at least one byte each,
`writen(fd, b, len(b))` returns `len(b)` and appends to the stream exactly the
byte `len(b) / 256`, the byte `len(b) % 256` (the 16-bit length, most
significant byte first) and then the bytes of `b`; the read side of the
descriptor is untouched. -/
theorem writen_wire_format (b : List Byte) (hpos : 0 < b.length)
    (hmax : b.length ≤ MAX_BLOCK_SIZE) (fd : Fd) (hs : Healthy fd.wsched) :
    ∃ fd', writen fd b (b.length : Int) = some ((b.length : Int), fd') ∧
      fd'.out = fd.out ++ (b.length / 256 :: b.length % 256 :: b) ∧
      b.length / 256 < 256 ∧ (b.length / 256) * 256 + b.length % 256 = b.length ∧
      fd'.inp = fd.inp ∧ fd'.rsched = fd.rsched := by
  have hN : b.length < 65536 := by unfold MAX_BLOCK_SIZE at hmax; omega
  obtain ⟨ws, _, he⟩ := writen_healthy fd b b.length hmax hs
  refine ⟨_, he, ?_, by omega, by omega, rfl, rfl⟩
  simp only [List.take_length, htons_of_nat _ hN]
  rfl

/-- Witness of C3: the payload 7, 8, 9 with the partial writes 1, 1, 2, 1. -/
theorem writen_wire_format_witness :
    ∃ fd', writen ⟨[], [], [5], [1, 1, 2, 1]⟩ [7, 8, 9] 3 = some (3, fd') ∧
      fd'.out = [5] ++ (3 / 256 :: 3 % 256 :: [7, 8, 9]) ∧
      3 / 256 < 256 ∧ (3 / 256) * 256 + 3 % 256 = 3 ∧
      fd'.inp = [] ∧ fd'.rsched = [] :=
  writen_wire_format [7, 8, 9] (by decide) (by decide) ⟨[], [], [5], [1, 1, 2, 1]⟩
    (by unfold Healthy; decide)

/-- C4 (closed stream), evaluated on the code: on a stream that is closed
before any byte has arrived, so that the first `read` returns 0, `readn` with a
capacity of 5120 returns -1, the value the header documents as "read error",
and not 0, the value it documents as "connection closed". -/
theorem readn_closed_stream_returns_error :
    readn ⟨[], [], [], []⟩ (List.replicate 5120 0) 5120
      = some (-1, List.replicate 5120 0, ⟨[], [], [], []⟩) ∧
    (sysRead ⟨[], [], [], []⟩ 1).1 = 0 := by
  refine ⟨?_, by decide⟩
  rw [readn_eq]
  rfl

/-- C5 (oversized frame), evaluated on the code: on a stream whose length
prefix is 20, 1, that is 5121, followed by 5121 payload bytes, `readn` with a
buffer of capacity 5120 returns 5121, a positive result, and stores all 5121
bytes from the start of the buffer on, one byte beyond its end. -/
theorem readn_oversized_frame_is_delivered :
    (readn ⟨20 :: 1 :: List.replicate 5121 7, [], [], []⟩ (List.replicate 5120 0) 5120).map
        (fun r => (r.1, r.2.1)) = some (5121, List.replicate 5121 7) ∧
    (List.replicate 5120 (0 : Byte)).length < (List.replicate 5121 (7 : Byte)).length := by
  obtain ⟨rs, _, he⟩ := readn_frame ⟨20 :: 1 :: List.replicate 5121 7, [], [], []⟩ 20 1
    (List.replicate 5121 7) [] (List.replicate 5120 0) 5120 (by rw [List.append_nil])
    (by rw [List.length_replicate]; rfl) (by decide) (by intro r hr; cases hr)
  refine ⟨?_, by rw [List.length_replicate, List.length_replicate]; omega⟩
  rw [he, List.length_replicate,
    List.drop_of_length_le (by rw [List.length_replicate]; omega), List.append_nil]
  rfl

/-! ## The transfer handshakes -/

/-- The server's iteration on a `G` request, shared by the statements below. -/
theorem serveStep_G_request (s : Server) (name rest : List Byte)
    (hname : ∀ x ∈ name, x ≠ 0) (hlen : name.length + 2 ≤ BUFSIZE)
    (hin : s.sock.inp = frame ('G'.toNat :: name ++ [0]) ++ rest)
    (hr : Healthy s.sock.rsched) (hw : Healthy s.sock.wsched) :
    ∃ s', s.serveStep = some (Outcome.awaiting s') ∧
      s'.sock.out = s.sock.out
        ++ frame (['G'.toNat, if s.dir.access name then '0'.toNat else '1'.toNat] ++ [0]) ∧
      s'.sock.inp = rest ∧ s'.opened = s.opened ∧ s'.dir = s.dir := by
  obtain ⟨rs, t, _, he⟩ := s.serveStep_request 'G'.toNat name rest (by decide) hname hlen hin hr
  obtain ⟨ws, f, _, hg⟩ := Server.getFile_G
    { s with sock := { s.sock with inp := rest, rsched := rs }, buf := name ++ 0 :: t }
    name t hname hw
  rw [he]
  unfold Server.dispatch
  have h1 : ¬ 'G'.toNat = 'P'.toNat := by decide
  have h2 : ¬ 'G'.toNat = 'D'.toNat := by decide
  have h3 : ¬ 'G'.toNat = 'C'.toNat := by decide
  rw [if_neg h1, if_neg h2, if_neg h3, if_pos (Or.inl rfl), hg]
  exact ⟨_, rfl, rfl, rfl, rfl, rfl⟩

/-- C8 (answer to `G`). For every `G` request with operand `name`, sent as the
client sends it (opcode, name, terminating NUL), the server goes back to
awaiting a command after writing exactly one frame. Its payload is the C
string with the 2-byte code: `G`, then `0` when `access(name, F_OK)` succeeds in
the worker's directory and `1` when it does not, then the terminating NUL. No
file is opened, nothing else is written, and the bytes after the request stay
unread. -/
theorem server_answers_G (s : Server) (name rest : List Byte)
    (hname : ∀ x ∈ name, x ≠ 0) (hlen : name.length + 2 ≤ BUFSIZE)
    (hin : s.sock.inp = frame ('G'.toNat :: name ++ [0]) ++ rest)
    (hr : Healthy s.sock.rsched) (hw : Healthy s.sock.wsched) :
    ∃ s', s.serveStep = some (Outcome.awaiting s') ∧
      s'.sock.out = s.sock.out
        ++ frame (['G'.toNat, if s.dir.access name then '0'.toNat else '1'.toNat] ++ [0]) ∧
      s'.sock.inp = rest ∧ s'.opened = s.opened ∧ s'.dir = s.dir :=
  serveStep_G_request s name rest hname hlen hin hr hw

/-- Witness of C8: the request `Ga` in a directory that holds `a`, followed on
the connection by the request `P`. -/
theorem server_answers_G_witness :
    ∃ s', (Server.mk ⟨frame ('G'.toNat :: lit "a" ++ [0]) ++ frame (lit "P" ++ [0]), [2], [], [3]⟩
            ⟨lit "/srv", [(lit "a", [1, 2, 3])], [], none⟩ [] [] [] [] [] []).serveStep
          = some (Outcome.awaiting s') ∧
      s'.sock.out = [] ++ frame (['G'.toNat, '0'.toNat] ++ [0]) ∧
      s'.sock.inp = frame (lit "P" ++ [0]) ∧ s'.opened = [] ∧
      s'.dir = ⟨lit "/srv", [(lit "a", [1, 2, 3])], [], none⟩ :=
  server_answers_G
    (Server.mk ⟨frame ('G'.toNat :: lit "a" ++ [0]) ++ frame (lit "P" ++ [0]), [2], [], [3]⟩
      ⟨lit "/srv", [(lit "a", [1, 2, 3])], [], none⟩ [] [] [] [] [] [])
    (lit "a") (frame (lit "P" ++ [0])) (by decide) (by decide) rfl
    (by unfold Healthy; decide) (by unfold Healthy; decide)

/-- C9 (download of a missing file). Let `name` be a file name that neither
the server's nor the client's directory holds. On the command `get name` the
client sends exactly one frame, `G<name>` with its terminating NUL; the server,
reading that frame, answers with the frame `G1`; the client, reading that
answer, opens or creates no file, leaves its directory as it was, prints
"File does not exist in the current server directory!" and sends nothing
else, so no `H` frame. -/
theorem download_of_missing_file (c : Client) (s : Server) (name : List Byte)
    (hname : ∀ x ∈ name, x ≠ 0) (hlen : name.length + 2 ≤ BUFSIZE)
    (hsrv : s.dir.access name = false) (hloc : c.dir.access name = false)
    (hsin : s.sock.inp = frame ('G'.toNat :: name ++ [0]))
    (hcin : c.sock.inp = frame (lit "G1" ++ [0]))
    (hsr : Healthy s.sock.rsched) (hsw : Healthy s.sock.wsched)
    (hcr : Healthy c.sock.rsched) (hcw : Healthy c.sock.wsched) :
    ∃ c' s', c.serverCommands [some (lit "get"), some name, none] = some c' ∧
      s.serveStep = some (Outcome.awaiting s') ∧
      c'.sock.out = c.sock.out ++ frame ('G'.toNat :: name ++ [0]) ∧
      s'.sock.out = s.sock.out ++ frame (lit "G1" ++ [0]) ∧
      c'.opened = c.opened ∧ c'.dir = c.dir ∧
      c'.stdout = c.stdout ++ ["File does not exist in the current server directory!\n"] ∧
      c'.sock.inp = [] ∧ s'.opened = s.opened := by
  obtain ⟨s', hs1, hs2, _, hs4, _⟩ := serveStep_G_request s name [] hname hlen
    (by rw [hsin, List.append_nil]) hsr hsw
  obtain ⟨t, hc0⟩ := Client.serverCommands_get c name hname
  have hz : ∀ x ∈ 'G'.toNat :: name, x ≠ 0 := by
    intro x hx
    rcases List.mem_cons.mp hx with h | h
    · rw [h]; decide
    · exact hname x h
  obtain ⟨ws, rs, _, _, hc1⟩ := Client.getFile_refused c ('G'.toNat :: name) t []
    [some (lit "get"), some name, none] hz
    (by simp only [List.length_cons]; unfold MAX_BLOCK_SIZE; unfold BUFSIZE at hlen; omega)
    (by show c.dir.access (cstr name) = false; rw [cstr_of_ne_zero name hname]; exact hloc)
    (by rw [hcin, List.append_nil]) hcr hcw
  refine ⟨_, s', hc0.trans hc1, hs1, rfl, ?_, rfl, rfl, rfl, rfl, hs4⟩
  rw [hs2, hsrv]
  rfl

/-- Witness of C9: `get c` when neither side holds `c`. -/
theorem download_of_missing_file_witness :
    ∃ c' s',
      (Client.mk ⟨frame (lit "G1" ++ [0]), [1], [], [2]⟩ ⟨lit "/home", [], [], none⟩ [] [] []).serverCommands
          [some (lit "get"), some (lit "c"), none] = some c' ∧
      (Server.mk ⟨frame ('G'.toNat :: lit "c" ++ [0]), [2], [], [3]⟩
          ⟨lit "/srv", [(lit "a", [1, 2, 3])], [], none⟩ [] [] [] [] [] []).serveStep
          = some (Outcome.awaiting s') ∧
      c'.sock.out = [] ++ frame ('G'.toNat :: lit "c" ++ [0]) ∧
      s'.sock.out = [] ++ frame (lit "G1" ++ [0]) ∧
      c'.opened = [] ∧ c'.dir = ⟨lit "/home", [], [], none⟩ ∧
      c'.stdout = [] ++ ["File does not exist in the current server directory!\n"] ∧
      c'.sock.inp = [] ∧ s'.opened = [] :=
  download_of_missing_file
    (Client.mk ⟨frame (lit "G1" ++ [0]), [1], [], [2]⟩ ⟨lit "/home", [], [], none⟩ [] [] [])
    (Server.mk ⟨frame ('G'.toNat :: lit "c" ++ [0]), [2], [], [3]⟩
      ⟨lit "/srv", [(lit "a", [1, 2, 3])], [], none⟩ [] [] [] [] [] [])
    (lit "c") (by decide) (by decide) rfl rfl rfl rfl
    (by unfold Healthy; decide) (by unfold Healthy; decide)
    (by unfold Healthy; decide) (by unfold Healthy; decide)

/-- C10 (refused upload). Let `name` exist in the server's directory (and in
the client's, or the client would not ask). On the command `put name` the
client sends the one frame `U<name>`; the server, reading it, answers with the
frame `U1`, opens and creates no file, leaves its directory as it was and
reads nothing beyond the request, whatever bytes `rest` follow it; the client,
reading `U1`, prints "File already exists on the server!", opens no file and
sends nothing else, so no data frame. -/
theorem upload_refused (c : Client) (s : Server) (name rest : List Byte)
    (hname : ∀ x ∈ name, x ≠ 0) (hlen : name.length + 2 ≤ BUFSIZE)
    (hsrv : s.dir.access name = true) (hloc : c.dir.access name = true)
    (hsin : s.sock.inp = frame ('U'.toNat :: name ++ [0]) ++ rest)
    (hcin : c.sock.inp = frame (lit "U1" ++ [0]))
    (hsr : Healthy s.sock.rsched) (hsw : Healthy s.sock.wsched)
    (hcr : Healthy c.sock.rsched) (hcw : Healthy c.sock.wsched) :
    ∃ c' s', c.serverCommands [some (lit "put"), some name, none] = some c' ∧
      s.serveStep = some (Outcome.awaiting s') ∧
      s'.sock.out = s.sock.out ++ frame (lit "U1" ++ [0]) ∧
      s'.sock.inp = rest ∧ s'.opened = s.opened ∧ s'.dir = s.dir ∧
      c'.sock.out = c.sock.out ++ frame ('U'.toNat :: name ++ [0]) ∧
      c'.stdout = c.stdout ++ ["File already exists on the server!\n"] ∧
      c'.opened = c.opened ∧ c'.dir = c.dir := by
  obtain ⟨rs, t, _, he⟩ := s.serveStep_request 'U'.toNat name rest (by decide) hname hlen hsin hsr
  obtain ⟨ws, _, hp⟩ := Server.putFile_U_refused
    { s with sock := { s.sock with inp := rest, rsched := rs }, buf := name ++ 0 :: t }
    name t hname hsrv hsw
  have hs : s.serveStep = some (Outcome.awaiting
      { s with
        sock := { inp := rest, rsched := rs,
                  out := s.sock.out ++ frame ['U'.toNat, '1'.toNat, 0], wsched := ws },
        buf := name ++ 0 :: t }) := by
    rw [he]
    unfold Server.dispatch
    have h1 : ¬ 'U'.toNat = 'P'.toNat := by decide
    have h2 : ¬ 'U'.toNat = 'D'.toNat := by decide
    have h3 : ¬ 'U'.toNat = 'C'.toNat := by decide
    have h4 : ¬ ('U'.toNat = 'G'.toNat ∨ 'U'.toNat = 'H'.toNat) := by decide
    rw [if_neg h1, if_neg h2, if_neg h3, if_neg h4, if_pos (Or.inl rfl), hp]
    rfl
  obtain ⟨t', hc0⟩ := Client.serverCommands_put c name hname
  have hz : ∀ x ∈ 'U'.toNat :: name, x ≠ 0 := by
    intro x hx
    rcases List.mem_cons.mp hx with h | h
    · rw [h]; decide
    · exact hname x h
  obtain ⟨ws', rs', _, _, hc1⟩ := Client.sendFile_refused c ('U'.toNat :: name) t' []
    [some (lit "put"), some name, none] hz
    (by simp only [List.length_cons]; unfold MAX_BLOCK_SIZE; unfold BUFSIZE at hlen; omega)
    (by show c.dir.access (cstr name) = true; rw [cstr_of_ne_zero name hname]; exact hloc)
    (by rw [hcin, List.append_nil]) hcr hcw
  exact ⟨_, _, hc0.trans hc1, hs, rfl, rfl, rfl, rfl, rfl, rfl, rfl, rfl⟩

/-- Witness of C10: `put a` when both sides hold `a`; the server's connection
carries a further frame after the request, which stays unread. -/
theorem upload_refused_witness :
    ∃ c' s',
      (Client.mk ⟨frame (lit "U1" ++ [0]), [1], [], [2]⟩
          ⟨lit "/home", [(lit "a", [4, 5])], [], none⟩ [] [] []).serverCommands
          [some (lit "put"), some (lit "a"), none] = some c' ∧
      (Server.mk ⟨frame ('U'.toNat :: lit "a" ++ [0]) ++ frame [4, 5], [2], [], [3]⟩
          ⟨lit "/srv", [(lit "a", [1, 2, 3])], [], none⟩ [] [] [] [] [] []).serveStep
          = some (Outcome.awaiting s') ∧
      s'.sock.out = [] ++ frame (lit "U1" ++ [0]) ∧
      s'.sock.inp = frame [4, 5] ∧ s'.opened = [] ∧
      s'.dir = ⟨lit "/srv", [(lit "a", [1, 2, 3])], [], none⟩ ∧
      c'.sock.out = [] ++ frame ('U'.toNat :: lit "a" ++ [0]) ∧
      c'.stdout = [] ++ ["File already exists on the server!\n"] ∧
      c'.opened = [] ∧ c'.dir = ⟨lit "/home", [(lit "a", [4, 5])], [], none⟩ :=
  upload_refused
    (Client.mk ⟨frame (lit "U1" ++ [0]), [1], [], [2]⟩
      ⟨lit "/home", [(lit "a", [4, 5])], [], none⟩ [] [] [])
    (Server.mk ⟨frame ('U'.toNat :: lit "a" ++ [0]) ++ frame [4, 5], [2], [], [3]⟩
      ⟨lit "/srv", [(lit "a", [1, 2, 3])], [], none⟩ [] [] [] [] [] [])
    (lit "a") (frame [4, 5]) (by decide) (by decide) rfl rfl rfl rfl
    (by unfold Healthy; decide) (by unfold Healthy; decide)
    (by unfold Healthy; decide) (by unfold Healthy; decide)

/-- C6 (download handshake), evaluated on the code. The directory holds `a`
with the contents 1, 2, 3, and the client sends `Ga` and then `H0`. When `open`
can read `a`, the server answers `G0` and then streams 1, 2, 3: the `H` call
opens the name that the `G` call has left in `filename`. When `a` exists but
`open` refuses it (no read permission), `access(a, F_OK)` still succeeds: the
server answers `G0` all the same, `open` returns -1, `read` fails, and the
server streams nothing, although the file holds three bytes. -/
theorem download_of_unreadable_file_streams_nothing :
    (Server.serveClient 3
        (Server.mk ⟨frame (lit "Ga" ++ [0]) ++ frame (lit "H0" ++ [0]), [], [], []⟩
          ⟨lit "/srv", [(lit "a", [1, 2, 3])], [], none⟩ [] [] [] [] [] [])).map
        (fun s => (s.sock.out, s.opened))
      = some (frame (lit "G0" ++ [0]) ++ frame [1, 2, 3], [lit "a"]) ∧
    (Server.serveClient 3
        (Server.mk ⟨frame (lit "Ga" ++ [0]) ++ frame (lit "H0" ++ [0]), [], [], []⟩
          ⟨lit "/srv", [(lit "a", [1, 2, 3])], [lit "a"], none⟩ [] [] [] [] [] [])).map
        (fun s => (s.sock.out, s.opened))
      = some (frame (lit "G0" ++ [0]), [lit "a"]) ∧
    Dir.access ⟨lit "/srv", [(lit "a", [1, 2, 3])], [lit "a"], none⟩ (lit "a") = true ∧
    Dir.openRead ⟨lit "/srv", [(lit "a", [1, 2, 3])], [lit "a"], none⟩ (lit "a") = none := by
  refine ⟨?_, ?_, ?_, ?_⟩ <;> decide

/-- C7 (upload reconstructs the file), evaluated on the code for the spec's
case of 5119 bytes. The client, told `U0`, sends the request `Uf` and the file
as one frame of 5119 bytes; its next command, `pwd`, sends the frame `P`. The
server's receiving loop does not stop after the frame of 5119 bytes, because
5119 is not less than `sizeof(buf)-2`: it reads the frame of `pwd` as file
data, and the file it has written when the loop ends is the source followed by
the two bytes `P`, NUL. -/
theorem upload_of_one_block_takes_next_command :
    (∃ c1, (Client.mk ⟨frame (lit "U0" ++ [0]), [], [], []⟩
            ⟨lit "/home", [(lit "f", oneBlockFile)], [], none⟩ [] [] []).serverCommands
          [some (lit "put"), some (lit "f"), none] = some c1 ∧
        c1.sock.out = frame ('U'.toNat :: lit "f" ++ [0]) ++ frame oneBlockFile) ∧
    ((Client.mk ⟨[], [], [], []⟩ ⟨lit "/home", [], [], none⟩ [] [] []).serverCommands
          [some (lit "pwd"), none]).map (fun c => c.sock.out) = some (frame (lit "P" ++ [0])) ∧
    (∃ s1, (Server.mk
            ⟨frame ('U'.toNat :: lit "f" ++ [0])
              ++ (frame oneBlockFile ++ (frame (lit "P" ++ [0]) ++ [])), [], [], []⟩
            ⟨lit "/srv", [], [], none⟩ [] [] [] [] [] []).serveStep = some (Outcome.awaiting s1) ∧
        s1.dir.files = [(lit "f", oneBlockFile ++ (lit "P" ++ [0]))] ∧ s1.sock.inp = []) ∧
    oneBlockFile ++ (lit "P" ++ [0]) ≠ oneBlockFile := by
  have hlen : oneBlockFile.length = 5119 := by rw [oneBlockFile, List.length_replicate]
  have hf : ∀ x ∈ lit "f", x ≠ 0 := by decide
  have hnil : Healthy [] := by intro r hr; cases hr
  refine ⟨?_, by decide, ?_, ?_⟩
  · obtain ⟨t, h0⟩ := Client.serverCommands_put
      (Client.mk ⟨frame (lit "U0" ++ [0]), [], [], []⟩
        ⟨lit "/home", [(lit "f", oneBlockFile)], [], none⟩ [] [] []) (lit "f") hf
    obtain ⟨ws, rs, _, _, h1⟩ := Client.sendFile_accepted_single
      (Client.mk ⟨frame (lit "U0" ++ [0]), [], [], []⟩
        ⟨lit "/home", [(lit "f", oneBlockFile)], [], none⟩ [] [] [])
      ('U'.toNat :: lit "f") t [] oneBlockFile [some (lit "put"), some (lit "f"), none]
      (by decide) (by decide) rfl rfl (by rw [hlen]; decide) (by rw [hlen]; decide) rfl hnil hnil
    exact ⟨_, h0.trans h1, rfl⟩
  · obtain ⟨s1, h1, h2, h3, _, _⟩ := Server.serveStep_upload_two
      (Server.mk
        ⟨frame ('U'.toNat :: lit "f" ++ [0])
          ++ (frame oneBlockFile ++ (frame (lit "P" ++ [0]) ++ [])), [], [], []⟩
        ⟨lit "/srv", [], [], none⟩ [] [] [] [] [] [])
      (lit "f") oneBlockFile (lit "P" ++ [0]) [] hf (by decide) rfl (by decide) rfl
      (by rw [hlen]; decide) (by rw [hlen]; decide) (by decide) (by decide) hnil hnil
    exact ⟨s1, h1, by rw [h2]; rfl, h3⟩
  · intro h
    have := congrArg List.length h
    rw [List.length_append, hlen] at this
    revert this
    decide

/-! ## The commands of the session -/

/-- A request frame with any non-empty payload: the server reads it and
dispatches on its first byte. -/
theorem Server.serveStep_frame (s : Server) (payload rest : List Byte)
    (hpos : 0 < payload.length) (hmax : payload.length < 65536)
    (hin : s.sock.inp = frame payload ++ rest) (hr : Healthy s.sock.rsched) :
    ∃ rs b, Healthy rs ∧
      s.serveStep =
        Server.dispatch { s with sock := { s.sock with inp := rest, rsched := rs }, buf := b }
          (payload.headD 0) := by
  obtain ⟨rs, hrs, he⟩ := readn_of_frame s.sock payload rest s.buf (BUFSIZE : Int) hin hmax
    (by decide) hr
  refine ⟨rs, store (payload ++ s.buf.drop payload.length) 0
    (((payload ++ s.buf.drop payload.length).drop 1).take
      (strlen (payload ++ s.buf.drop payload.length))), hrs, ?_⟩
  unfold Server.serveStep
  rw [he]
  have hnr : ¬ ((payload.length : Int) ≤ 0) := by omega
  simp only [hnr, if_false]
  have hhead : (payload ++ s.buf.drop payload.length).headD 0 = payload.headD 0 := by
    cases payload with
    | nil => simp at hpos
    | cons x xs => rfl
  rw [hhead]

/-- A single byte sent with `writen(sock, p, 1)`. -/
theorem send_byte (fd : Fd) (x : Byte) (hs : Healthy fd.wsched) :
    ∃ ws, Healthy ws ∧
      send fd [x] 1 = some { fd with out := fd.out ++ frame [x], wsched := ws } := by
  obtain ⟨ws, hws, he⟩ := send_healthy fd [x] 1 (by decide) hs
  refine ⟨ws, hws, ?_⟩
  rw [show (1 : Int) = ((1 : Nat) : Int) from rfl, he, htons_of_nat 1 (by decide)]
  simp [frame]

theorem cstr_lit_unknown :
    cstr (lit "Command not recognised.") = lit "Command not recognised." := by decide

/-- The last branch of the dispatch: a command that is none of the opcodes is
answered with the text "Command not recognised.". -/
theorem Server.dispatch_unknown (s0 : Server) (command : Byte)
    (hop : ∀ op ∈ lit "PDCGHUV", command ≠ op) (hw : Healthy s0.sock.wsched) :
    ∃ ws r, Healthy ws ∧
      Server.dispatch s0 command =
        some (Outcome.awaiting { s0 with
          sock := { s0.sock with
            out := s0.sock.out ++ frame (lit "Command not recognised." ++ [0]), wsched := ws },
          response := r }) := by
  have hP : ¬ command = 'P'.toNat := hop _ (by decide)
  have hD : ¬ command = 'D'.toNat := hop _ (by decide)
  have hC : ¬ command = 'C'.toNat := hop _ (by decide)
  have hG : ¬ command = 'G'.toNat := hop _ (by decide)
  have hH : ¬ command = 'H'.toNat := hop _ (by decide)
  have hU : ¬ command = 'U'.toNat := hop _ (by decide)
  have hV : ¬ command = 'V'.toNat := hop _ (by decide)
  have hGH : ¬ (command = 'G'.toNat ∨ command = 'H'.toNat) := by
    intro h; rcases h with h | h
    · exact hG h
    · exact hH h
  have hUV : ¬ (command = 'U'.toNat ∨ command = 'V'.toNat) := by
    intro h; rcases h with h | h
    · exact hU h
    · exact hV h
  have hresp : strcpy s0.response (lit "Command not recognised.")
      = lit "Command not recognised." ++
          0 :: s0.response.drop ((lit "Command not recognised.").length + 1) := by
    rw [strcpy_eq, cstr_lit_unknown]
  obtain ⟨ws, hws, he⟩ := send_string s0.sock (lit "Command not recognised.")
    (s0.response.drop ((lit "Command not recognised.").length + 1))
    (by decide) (by decide) hw
  refine ⟨ws, strcpy s0.response (lit "Command not recognised."), hws, ?_⟩
  unfold Server.dispatch
  rw [if_neg hP, if_neg hD, if_neg hC, if_neg hGH, if_neg hUV]
  dsimp only
  rw [hresp, he]

/-- C14 (unrecognised opcode). For every request frame with a payload of 1 to
5120 bytes whose first byte is none of `P`, `D`, `C`, `G`, `H`, `U`, `V`, the
server writes exactly one frame, whose payload is the text "Command not
recognised." with its terminating NUL, leaves its directory alone, opens no
file and is back at the head of its loop with the bytes after the request
unread: `serveClient` goes on with the next `readn`. -/
theorem unknown_opcode_is_answered (s : Server) (payload rest : List Byte)
    (hpos : 0 < payload.length) (hmax : payload.length ≤ MAX_BLOCK_SIZE)
    (hop : ∀ op ∈ lit "PDCGHUV", payload.headD 0 ≠ op)
    (hin : s.sock.inp = frame payload ++ rest)
    (hr : Healthy s.sock.rsched) (hw : Healthy s.sock.wsched) :
    ∃ s', s.serveStep = some (Outcome.awaiting s') ∧
      s'.sock.out = s.sock.out ++ frame (lit "Command not recognised." ++ [0]) ∧
      s'.sock.inp = rest ∧ s'.dir = s.dir ∧ s'.opened = s.opened ∧
      ∀ fuel, Server.serveClient (fuel + 1) s = Server.serveClient fuel s' := by
  obtain ⟨rs, b, _, he⟩ := s.serveStep_frame payload rest hpos
    (by unfold MAX_BLOCK_SIZE at hmax; omega) hin hr
  obtain ⟨ws, r, _, hd⟩ := Server.dispatch_unknown
    { s with sock := { s.sock with inp := rest, rsched := rs }, buf := b } (payload.headD 0) hop hw
  have hs := he.trans hd
  refine ⟨_, hs, rfl, rfl, rfl, rfl, ?_⟩
  intro fuel
  conv_lhs => unfold Server.serveClient
  rw [hs]

/-- Witness of C14: the request `X` followed on the connection by `P`. -/
theorem unknown_opcode_is_answered_witness :
    ∃ s', (Server.mk ⟨frame (lit "X" ++ [0]) ++ frame (lit "P" ++ [0]), [1], [], [2]⟩
            ⟨lit "/srv", [], [], none⟩ [] [] [] [] [] []).serveStep = some (Outcome.awaiting s') ∧
      s'.sock.out = [] ++ frame (lit "Command not recognised." ++ [0]) ∧
      s'.sock.inp = frame (lit "P" ++ [0]) ∧ s'.dir = ⟨lit "/srv", [], [], none⟩ ∧
      s'.opened = [] ∧
      ∀ fuel, Server.serveClient (fuel + 1)
          (Server.mk ⟨frame (lit "X" ++ [0]) ++ frame (lit "P" ++ [0]), [1], [], [2]⟩
            ⟨lit "/srv", [], [], none⟩ [] [] [] [] [] []) = Server.serveClient fuel s' :=
  unknown_opcode_is_answered
    (Server.mk ⟨frame (lit "X" ++ [0]) ++ frame (lit "P" ++ [0]), [1], [], [2]⟩
      ⟨lit "/srv", [], [], none⟩ [] [] [] [] [] [])
    (lit "X" ++ [0]) (frame (lit "P" ++ [0])) (by decide) (by decide) (by decide) rfl
    (by unfold Healthy; decide) (by unfold Healthy; decide)

/-- The `C` branch of the dispatch: one byte, the first byte of `chdir_result`,
which is 0 after a successful `chdir` and 255 after a failed one. -/
theorem Server.dispatch_C (s0 : Server) (hw : Healthy s0.sock.wsched) :
    ∃ ws, Healthy ws ∧
      ((∃ d cs, s0.chdirs = Chdir.ok d :: cs ∧
          Server.dispatch s0 'C'.toNat = some (Outcome.awaiting { s0 with
            sock := { s0.sock with out := s0.sock.out ++ frame [0], wsched := ws },
            dir := d, chdirs := cs })) ∨
       ((∀ d cs, s0.chdirs ≠ Chdir.ok d :: cs) ∧
          Server.dispatch s0 'C'.toNat = some (Outcome.awaiting { s0 with
            sock := { s0.sock with out := s0.sock.out ++ frame [255], wsched := ws },
            chdirs := s0.chdirs.drop 1 }))) := by
  have hP : ¬ 'C'.toNat = 'P'.toNat := by decide
  have hD : ¬ 'C'.toNat = 'D'.toNat := by decide
  unfold Server.dispatch
  rw [if_neg hP, if_neg hD, if_pos rfl]
  cases hc : s0.chdirs with
  | nil =>
    obtain ⟨ws, hws, he⟩ := send_byte s0.sock 255 hw
    refine ⟨ws, hws, Or.inr ⟨(fun d cs h => by cases h), ?_⟩⟩
    have hb : Server.firstByte (-1) = 255 := by decide
    simp only [hb, he, List.drop_nil]
  | cons c cs =>
    cases c with
    | ok d =>
      obtain ⟨ws, hws, he⟩ := send_byte s0.sock 0 hw
      refine ⟨ws, hws, Or.inl ⟨d, cs, rfl, ?_⟩⟩
      have hb : Server.firstByte 0 = 0 := by decide
      simp only [hb, he]
    | fail e =>
      obtain ⟨ws, hws, he⟩ := send_byte s0.sock 255 hw
      refine ⟨ws, hws, Or.inr ⟨(fun d cs' h => by cases h), ?_⟩⟩
      have hb : Server.firstByte (-1) = 255 := by decide
      simp only [hb, he, List.drop_succ_cons, List.drop_zero]

/-- C11 as amended (answer to `C`). For every `C` request, sent as the client
sends it (opcode, path, terminating NUL), the server writes exactly one frame
with a payload of exactly one byte and is back at the head of its loop: the
byte is 0 when `chdir` succeeded, and the worker is then in the new directory;
it is 255, the first byte of `chdir`'s result -1, when `chdir` failed, whatever
the value of `errno`, and the worker is then in the directory it was in. -/
theorem server_answers_C (s : Server) (path rest : List Byte)
    (hpath : ∀ x ∈ path, x ≠ 0) (hlen : path.length + 2 ≤ BUFSIZE)
    (hin : s.sock.inp = frame ('C'.toNat :: path ++ [0]) ++ rest)
    (hr : Healthy s.sock.rsched) (hw : Healthy s.sock.wsched) :
    ∃ s', s.serveStep = some (Outcome.awaiting s') ∧ s'.sock.inp = rest ∧
      ((∃ d cs, s.chdirs = Chdir.ok d :: cs ∧ s'.dir = d ∧
          s'.sock.out = s.sock.out ++ frame [0]) ∨
       ((∀ d cs, s.chdirs ≠ Chdir.ok d :: cs) ∧ s'.dir = s.dir ∧
          s'.sock.out = s.sock.out ++ frame [255])) := by
  obtain ⟨rs, t, _, he⟩ := s.serveStep_request 'C'.toNat path rest (by decide) hpath hlen hin hr
  obtain ⟨ws, _, hd⟩ := Server.dispatch_C
    { s with sock := { s.sock with inp := rest, rsched := rs }, buf := path ++ 0 :: t } hw
  rcases hd with ⟨d, cs, hc, hd⟩ | ⟨hc, hd⟩
  · exact ⟨_, he.trans hd, rfl, Or.inl ⟨d, cs, hc, rfl, rfl⟩⟩
  · exact ⟨_, he.trans hd, rfl, Or.inr ⟨hc, rfl, rfl⟩⟩

/-- Witness of the amended C11: the request `Cx` when `chdir` fails with
`errno = 2`. -/
theorem server_answers_C_witness :
    ∃ s', (Server.mk ⟨frame ('C'.toNat :: lit "x" ++ [0]) ++ [], [1], [], [2]⟩
            ⟨lit "/srv", [], [], none⟩ [Chdir.fail 2] [] [] [] [] []).serveStep
          = some (Outcome.awaiting s') ∧ s'.sock.inp = [] ∧
      ((∃ d cs, [Chdir.fail 2] = Chdir.ok d :: cs ∧ s'.dir = d ∧
          s'.sock.out = [] ++ frame [0]) ∨
       ((∀ d cs, [Chdir.fail 2] ≠ Chdir.ok d :: cs) ∧ s'.dir = ⟨lit "/srv", [], [], none⟩ ∧
          s'.sock.out = [] ++ frame [255])) :=
  server_answers_C
    (Server.mk ⟨frame ('C'.toNat :: lit "x" ++ [0]) ++ [], [1], [], [2]⟩
      ⟨lit "/srv", [], [], none⟩ [Chdir.fail 2] [] [] [] [] [])
    (lit "x") [] (by decide) (by decide) rfl
    (by unfold Healthy; decide) (by unfold Healthy; decide)

/-- Counterexample to C11 as stated: the request `Cx` when `chdir` fails with
`errno = 2` (no such file or directory) is answered with the byte 255, which is
not the error code 2. -/
theorem server_answer_to_failed_C_is_not_errno :
    ((Server.mk ⟨frame (lit "Cx" ++ [0]), [], [], []⟩
        ⟨lit "/srv", [], [], none⟩ [Chdir.fail 2] [] [] [] [] []).serveStep).map
      (fun o => match o with
        | Outcome.awaiting s' => s'.sock.out
        | Outcome.terminated s' => s'.sock.out) = some (frame [255]) ∧
    frame [255] ≠ frame [2] := by
  constructor <;> decide

/-! ## The directory listing -/

/-- C12 (failed listing), evaluated on the code. When `opendir(".")` fails the
server answers `D` with the two bytes 49, 0: the string "1", whose first byte
is the character `1`. The client compares `response[0]` with the number 1, so
it does not print "Server could not open directory": it prints the answer as a
file list, "Files in server working dir: 1". -/
theorem failed_listing_is_printed_as_a_list :
    ((Server.mk ⟨frame (lit "D" ++ [0]), [], [], []⟩
        ⟨lit "/srv", [], [], none⟩ [] [] [] [] [] []).serveStep).map
      (fun o => match o with
        | Outcome.awaiting s' => s'.sock.out
        | Outcome.terminated s' => s'.sock.out) = some (frame ['1'.toNat, 0]) ∧
    ((Client.mk ⟨frame ['1'.toNat, 0], [], [], []⟩ ⟨lit "/home", [], [], none⟩ [] [] []).serverCommands
        [some (lit "dir"), none]).map (fun c => (c.sock.out, c.stdout))
      = some (frame (lit "D" ++ [0]), ["Files in server working dir: 1\n"]) ∧
    frame ['1'.toNat, 0] ≠ frame [1] := by
  refine ⟨?_, ?_, ?_⟩ <;> decide

theorem cstr_lit_newline : cstr (lit "\n") = ['\n'.toNat] := by decide

theorem newlineBefore_ne_zero (names : List (List Byte))
    (hnames : ∀ n ∈ names, ∀ x ∈ n, x ≠ 0) : ∀ x ∈ newlineBefore names, x ≠ 0 := by
  induction names with
  | nil => intro x hx; cases hx
  | cons n ns ih =>
    intro x hx
    unfold newlineBefore at hx
    rcases List.mem_cons.mp hx with h | h
    · rw [h]; decide
    · rcases List.mem_append.mp h with h | h
      · exact hnames n (List.mem_cons_self _ _) x h
      · exact ih (fun m hm => hnames m (List.mem_cons_of_mem _ hm)) x h

/-- The loop of `readDirFiles`: on an array that holds the string `acc`, the
calls `strcat(directory, "\n"); strcat(directory, d_name)` for the successive
names leave `acc` followed by every name with a newline before it. -/
theorem readDirFiles_loop (names : List (List Byte))
    (hnames : ∀ n ∈ names, ∀ x ∈ n, x ≠ 0) :
    ∀ (acc t : List Byte), (∀ x ∈ acc, x ≠ 0) →
      ∃ t', names.foldl (fun directory d_name => strcat (strcat directory (lit "\n")) d_name)
          (acc ++ 0 :: t) = (acc ++ newlineBefore names) ++ 0 :: t' := by
  induction names with
  | nil => intro acc t _; exact ⟨t, by simp [newlineBefore]⟩
  | cons n ns ih =>
    intro acc t hacc
    have hn : ∀ x ∈ n, x ≠ 0 := hnames n (List.mem_cons_self _ _)
    have hacc1 : ∀ x ∈ acc ++ ['\n'.toNat], x ≠ 0 := by
      intro x hx
      rcases List.mem_append.mp hx with h | h
      · exact hacc x h
      · rw [List.mem_singleton] at h; rw [h]; decide
    have hacc2 : ∀ x ∈ acc ++ ['\n'.toNat] ++ n, x ≠ 0 := by
      intro x hx
      rcases List.mem_append.mp hx with h | h
      · exact hacc1 x h
      · exact hn x h
    obtain ⟨t', ht'⟩ := ih (fun m hm => hnames m (List.mem_cons_of_mem _ hm))
      (acc ++ ['\n'.toNat] ++ n) ((t.drop (cstr (lit "\n")).length).drop (cstr n).length) hacc2
    refine ⟨t', ?_⟩
    rw [List.foldl_cons, strcat_eq acc t _ hacc, cstr_lit_newline,
      strcat_eq (acc ++ ['\n'.toNat]) _ _ hacc1, cstr_of_ne_zero n hn]
    rw [cstr_lit_newline, cstr_of_ne_zero n hn] at ht'
    rw [ht']
    simp [newlineBefore]

/-- Every name preceded by a newline is a newline followed by the names joined
by newlines, when there is a name at all. -/
theorem newlineBefore_eq_joinNames (n : List Byte) (ns : List (List Byte)) :
    newlineBefore (n :: ns) = '\n'.toNat :: joinNames (n :: ns) := by
  induction ns generalizing n with
  | nil => simp [newlineBefore, joinNames]
  | cons m ms ih =>
    have h := ih m
    show '\n'.toNat :: n ++ newlineBefore (m :: ms) = '\n'.toNat :: joinNames (n :: m :: ms)
    rw [h]
    simp [joinNames]

/-- The `D` branch of the dispatch after a successful listing whose text fits
a frame. -/
theorem Server.dispatch_D (s0 : Server) (names : List (List Byte))
    (hl : s0.dir.listing = some names) (hnames : ∀ n ∈ names, ∀ x ∈ n, x ≠ 0)
    (hfit : (newlineBefore names).length + 1 ≤ MAX_BLOCK_SIZE)
    (hw : Healthy s0.sock.wsched) :
    ∃ ws r, Healthy ws ∧
      Server.dispatch s0 'D'.toNat = some (Outcome.awaiting { s0 with
        sock := { s0.sock with
          out := s0.sock.out ++ frame (newlineBefore names ++ [0]), wsched := ws },
        response := r }) := by
  have hP : ¬ 'D'.toNat = 'P'.toNat := by decide
  have h0 : store s0.junk 0 [0] = [] ++ 0 :: s0.junk.drop 1 := by simp [store]
  obtain ⟨t', hloop⟩ := readDirFiles_loop names hnames [] (s0.junk.drop 1)
    (fun x hx => by cases hx)
  have hresp : Server.readDirFiles s0.dir s0.junk s0.response
      = newlineBefore names ++ 0 :: s0.response.drop ((newlineBefore names).length + 1) := by
    unfold Server.readDirFiles
    rw [hl]
    dsimp only
    rw [h0, hloop, strcpy_eq, List.nil_append,
      cstr_append_zero _ _ (newlineBefore_ne_zero names hnames)]
  obtain ⟨ws, hws, he⟩ := send_string s0.sock (newlineBefore names)
    (s0.response.drop ((newlineBefore names).length + 1))
    (newlineBefore_ne_zero names hnames) hfit hw
  refine ⟨ws, Server.readDirFiles s0.dir s0.junk s0.response, hws, ?_⟩
  unfold Server.dispatch
  rw [if_neg hP, if_pos rfl]
  dsimp only
  rw [hresp, he]

/-- C13 as amended (answer to `D`). Let the listing of the server's directory
succeed with the entry names `names`, and let the text built from them fit a
frame. The server answers the request `D` with exactly one frame whose payload
is, in listing order, every name preceded by a newline character, and then the
terminating NUL. So there is one newline between consecutive names and one more
before the first name: for a non-empty listing the text is a newline followed
by the names joined by newlines. -/
theorem server_answers_D (s : Server) (rest : List Byte) (entries : List (List Byte))
    (hl : s.dir.listing = some entries) (hnames : ∀ n ∈ entries, ∀ x ∈ n, x ≠ 0)
    (hfit : (newlineBefore entries).length + 1 ≤ MAX_BLOCK_SIZE)
    (hin : s.sock.inp = frame (lit "D" ++ [0]) ++ rest)
    (hr : Healthy s.sock.rsched) (hw : Healthy s.sock.wsched) :
    ∃ s', s.serveStep = some (Outcome.awaiting s') ∧
      s'.sock.out = s.sock.out ++ frame (newlineBefore entries ++ [0]) ∧
      s'.sock.inp = rest ∧
      (entries ≠ [] → newlineBefore entries = '\n'.toNat :: joinNames entries) := by
  obtain ⟨rs, t, _, he⟩ := s.serveStep_request 'D'.toNat [] rest (by decide)
    (fun x hx => by cases hx) (by decide) (by rw [hin]; rfl) hr
  obtain ⟨ws, r, _, hd⟩ := Server.dispatch_D
    { s with sock := { s.sock with inp := rest, rsched := rs }, buf := [] ++ 0 :: t }
    entries hl hnames hfit hw
  refine ⟨_, he.trans hd, rfl, rfl, ?_⟩
  intro hne
  cases entries with
  | nil => exact absurd rfl hne
  | cons n ns => exact newlineBefore_eq_joinNames n ns

/-- Witness of the amended C13: a directory with the entries `.` and `a`. -/
theorem server_answers_D_witness :
    ∃ s', (Server.mk ⟨frame (lit "D" ++ [0]) ++ frame (lit "P" ++ [0]), [1], [], [2]⟩
            ⟨lit "/srv", [], [], some [lit ".", lit "a"]⟩ [] [] [] [] [] []).serveStep
          = some (Outcome.awaiting s') ∧
      s'.sock.out = [] ++ frame (newlineBefore [lit ".", lit "a"] ++ [0]) ∧
      s'.sock.inp = frame (lit "P" ++ [0]) ∧
      ([lit ".", lit "a"] ≠ [] →
        newlineBefore [lit ".", lit "a"] = '\n'.toNat :: joinNames [lit ".", lit "a"]) :=
  server_answers_D
    (Server.mk ⟨frame (lit "D" ++ [0]) ++ frame (lit "P" ++ [0]), [1], [], [2]⟩
      ⟨lit "/srv", [], [], some [lit ".", lit "a"]⟩ [] [] [] [] [] [])
    (frame (lit "P" ++ [0])) [lit ".", lit "a"] rfl (by decide) (by decide) rfl
    (by unfold Healthy; decide) (by unfold Healthy; decide)

/-- Counterexample to C13 as stated: for the listing `.`, `a` the server's
answer to `D` carries the text newline, `.`, newline, `a`, which is not the
names joined by newlines: it starts with a newline. -/
theorem server_answer_to_D_starts_with_newline :
    ((Server.mk ⟨frame (lit "D" ++ [0]), [], [], []⟩
        ⟨lit "/srv", [], [], some [lit ".", lit "a"]⟩ [] [] [] [] [] []).serveStep).map
      (fun o => match o with
        | Outcome.awaiting s' => s'.sock.out
        | Outcome.terminated s' => s'.sock.out) = some (frame (lit "\n.\na" ++ [0])) ∧
    joinNames [lit ".", lit "a"] = lit ".\na" ∧
    lit "\n.\na" ≠ joinNames [lit ".", lit "a"] := by
  refine ⟨?_, ?_, ?_⟩ <;> decide

/-! ## The client's arguments and the tokeniser -/

/-- The run of `main` with a host and a port argument, by the value of the
port argument. -/
theorem Client.main_three (atoi : List Byte → Int) (argv : List (List Byte))
    (h3 : argv.length = 3) :
    Client.main atoi argv =
      if 1024 ≤ atoi (argv.getD 2 []) ∧ atoi (argv.getD 2 []) ≤ 65535 then
        Startup.connect (cstr (argv.getD 1 [])) (atoi (argv.getD 2 [])).toNat
      else Startup.exit "Error: server port number must be between 1024 and 65535\n" := by
  unfold Client.main
  have h1 : ¬ argv.length = 1 := by omega
  have h2 : ¬ argv.length = 2 := by omega
  rw [if_neg h1, if_neg h2, if_pos h3]
  by_cases h : 1024 ≤ atoi (argv.getD 2 []) ∧ atoi (argv.getD 2 []) ≤ 65535
  · have h' : atoi (argv.getD 2 []) ≥ 1024 ∧ atoi (argv.getD 2 []) < 65536 := by omega
    have hm : atoi (argv.getD 2 []) % 65536 = atoi (argv.getD 2 []) := by omega
    rw [if_pos h, if_pos h', hm]
  · have h' : ¬ (atoi (argv.getD 2 []) ≥ 1024 ∧ atoi (argv.getD 2 []) < 65536) := by omega
    rw [if_neg h, if_neg h']

/-- C15 (port validation). When the client is started with a host and a port
argument and `n` is the integer that `atoi` reads from the port argument: the
client goes on to `socketSetup` if and only if `1024 ≤ n ≤ 65535`; the port it
passes on is then `n`; for every other `n` it prints "Error: server port number
must be between 1024 and 65535" and calls `exit(1)`, without reaching
`socketSetup`. -/
theorem port_validation (atoi : List Byte → Int) (argv : List (List Byte))
    (h3 : argv.length = 3) :
    ((∃ host port, Client.main atoi argv = Startup.connect host port) ↔
      (1024 ≤ atoi (argv.getD 2 []) ∧ atoi (argv.getD 2 []) ≤ 65535)) ∧
    (∀ host port, Client.main atoi argv = Startup.connect host port →
      (port : Int) = atoi (argv.getD 2 [])) ∧
    (¬ (1024 ≤ atoi (argv.getD 2 []) ∧ atoi (argv.getD 2 []) ≤ 65535) →
      Client.main atoi argv =
        Startup.exit "Error: server port number must be between 1024 and 65535\n") := by
  have hm := Client.main_three atoi argv h3
  by_cases h : 1024 ≤ atoi (argv.getD 2 []) ∧ atoi (argv.getD 2 []) ≤ 65535
  · rw [if_pos h] at hm
    refine ⟨⟨fun _ => h, fun _ => ⟨_, _, hm⟩⟩, ?_, fun hn => absurd h hn⟩
    intro host port hc
    rw [hm] at hc
    injection hc with _ hp
    rw [← hp]
    omega
  · rw [if_neg h] at hm
    refine ⟨⟨?_, fun hh => absurd hh h⟩, ?_, fun _ => hm⟩
    · rintro ⟨host, port, hc⟩
      rw [hm] at hc
      cases hc
    · intro host port hc
      rw [hm] at hc
      cases hc

/-- Witness of C15: the arguments `myftp h 2121`, with an `atoi` that reads
2121. -/
theorem port_validation_witness :
    ((∃ host port, Client.main (fun _ => 2121) [lit "myftp", lit "h", lit "2121"]
        = Startup.connect host port) ↔
      (1024 ≤ (2121 : Int) ∧ (2121 : Int) ≤ 65535)) ∧
    (∀ host port, Client.main (fun _ => 2121) [lit "myftp", lit "h", lit "2121"]
        = Startup.connect host port → (port : Int) = 2121) ∧
    (¬ (1024 ≤ (2121 : Int) ∧ (2121 : Int) ≤ 65535) →
      Client.main (fun _ => 2121) [lit "myftp", lit "h", lit "2121"] =
        Startup.exit "Error: server port number must be between 1024 and 65535\n") :=
  port_validation (fun _ => 2121) [lit "myftp", lit "h", lit "2121"] rfl

theorem maximalRuns_nil : maximalRuns [] = [] := by decide

/-- Separators in front of a line do not change its runs. -/
theorem maximalRuns_dropWhile (l : List Byte) :
    maximalRuns (l.dropWhile isSep) = maximalRuns l := by
  induction l with
  | nil => rfl
  | cons x xs ih =>
    by_cases hx : isSep x = true
    · rw [List.dropWhile_cons_of_pos hx, ih]
      unfold maximalRuns
      rw [List.splitOnP_cons, if_pos hx]
      rfl
    · rw [List.dropWhile_cons_of_neg hx]

/-- What `dropWhile` leaves starts with an element that fails the test. -/
theorem dropWhile_head (p : Byte → Bool) (l : List Byte) (c : Byte) (cs : List Byte)
    (h : l.dropWhile p = c :: cs) : p c = false := by
  induction l with
  | nil => cases h
  | cons x xs ih =>
    by_cases hx : p x = true
    · rw [List.dropWhile_cons_of_pos hx] at h
      exact ih h
    · rw [List.dropWhile_cons_of_neg hx] at h
      injection h with h1 _
      rw [← h1]
      simpa using hx

/-- A run followed by nothing, or by a separator and more. -/
theorem maximalRuns_run (tk : List Byte) (htk : ∀ x ∈ tk, isSep x = false) (hne : tk ≠ []) :
    maximalRuns tk = [tk] ∧
    ∀ sep tail, isSep sep = true → maximalRuns (tk ++ sep :: tail) = tk :: maximalRuns tail := by
  have hemp : tk.isEmpty = false := by
    cases tk with
    | nil => exact absurd rfl hne
    | cons x xs => rfl
  have hnot : ∀ x ∈ tk, ¬ isSep x = true := by
    intro x hx; rw [htk x hx]; decide
  constructor
  · unfold maximalRuns
    rw [List.splitOnP_eq_single isSep tk hnot]
    simp [hemp]
  · intro sep tail hsep
    unfold maximalRuns
    rw [List.splitOnP_first isSep tk hnot sep hsep tail]
    simp [hemp]

/-- The token and the saved position that `strtok` returns, in terms of the
runs of the string it scans: the first run, or `NULL` when there is none, and a
position whose runs are the remaining ones. -/
theorem strtok_runs (l : List Byte) :
    (strtok l).1 = (maximalRuns l).head? ∧ maximalRuns (strtok l).2 = (maximalRuns l).tail := by
  unfold strtok
  cases h : l.dropWhile isSep with
  | nil =>
    have hr : maximalRuns l = [] := by
      rw [← maximalRuns_dropWhile, h, maximalRuns_nil]
    simp only [hr, maximalRuns_nil]
    exact ⟨rfl, rfl⟩
  | cons c cs =>
    have hc : isSep c = false := dropWhile_head isSep l c cs h
    have hsplit := List.takeWhile_append_dropWhile (fun x => !isSep x) (c :: cs)
    have htk : ∀ x ∈ (c :: cs).takeWhile (fun x => !isSep x), isSep x = false := by
      intro x hx
      have := List.mem_takeWhile_imp hx
      simpa using this
    have hne : (c :: cs).takeWhile (fun x => !isSep x) ≠ [] := by
      rw [List.takeWhile_cons_of_pos (by simp [hc])]
      exact List.cons_ne_nil _ _
    obtain ⟨hsingle, hfirst⟩ := maximalRuns_run _ htk hne
    have hl : maximalRuns l = maximalRuns (c :: cs) := by
      rw [← maximalRuns_dropWhile, h]
    cases hd : (c :: cs).dropWhile (fun x => !isSep x) with
    | nil =>
      rw [hd, List.append_nil] at hsplit
      have hr : maximalRuns l = [(c :: cs).takeWhile (fun x => !isSep x)] := by
        rw [hl]
        conv_lhs => rw [← hsplit]
        exact hsingle
      refine ⟨by rw [hr]; rfl, ?_⟩
      show maximalRuns (((c :: cs).dropWhile (fun x => !isSep x)).drop 1) = _
      rw [hd, hr]
      rfl
    | cons sep tail =>
      have hsep : isSep sep = true := by
        have := dropWhile_head (fun x => !isSep x) (c :: cs) sep tail hd
        simpa using this
      rw [hd] at hsplit
      have hr : maximalRuns l
          = (c :: cs).takeWhile (fun x => !isSep x) :: maximalRuns tail := by
        rw [hl]
        conv_lhs => rw [← hsplit]
        exact hfirst sep tail hsep
      refine ⟨by rw [hr]; rfl, ?_⟩
      show maximalRuns (((c :: cs).dropWhile (fun x => !isSep x)).drop 1) = _
      rw [hd, hr]
      rfl

theorem setAt_append (done tl : List (Option (List Byte))) (a b : Option (List Byte)) :
    setAt (done ++ a :: tl) (done.length + 1) b = (done ++ [a]) ++ b :: tl.drop 1 := by
  unfold setAt
  have h1 : (done ++ a :: tl).take (done.length + 1) = done ++ [a] := by
    rw [List.take_append_eq_append_take]
    simp
  have h2 : (done ++ a :: tl).drop (done.length + 1 + 1) = tl.drop 1 := by
    rw [show done.length + 1 + 1 = done.length + 2 from rfl, List.drop_append]
    rfl
  rw [h1, h2]

/-- The loop of `tokenise`, entered with the token `t` just stored at index
`i`: when the tokens stored so far, `t` and the runs still to come are fewer
than `MAX_NUM_TOKENS`, the loop stores the remaining runs after `t` and then
`NULL`. -/
theorem tokeniseLoop_runs :
    ∀ (fuel : Nat) (rest : List Byte) (done tl : List (Option (List Byte))) (t : List Byte),
      done.length + 1 + (maximalRuns rest).length < MAX_NUM_TOKENS →
      (maximalRuns rest).length < fuel →
      tokeniseLoop fuel done.length (some t) rest (done ++ some t :: tl) =
        some (done ++ some t ::
          ((maximalRuns rest).map some ++ none :: tl.drop ((maximalRuns rest).length + 1))) := by
  intro fuel
  induction fuel with
  | zero => intro rest done tl t _ hf; omega
  | succ fuel ih =>
    intro rest done tl t hmax hf
    obtain ⟨h1, h2⟩ := strtok_runs rest
    unfold tokeniseLoop
    have hbound : ¬ (done.length + 1 ≥ MAX_NUM_TOKENS) := by omega
    rw [if_pos (show (some t).isSome = true from rfl), if_neg hbound, setAt_append]
    cases hr : maximalRuns rest with
    | nil =>
      rw [hr] at h1
      have hnone : (strtok rest).1 = none := h1
      rw [hnone]
      have : tokeniseLoop fuel (done.length + 1) none (strtok rest).2
          ((done ++ [some t]) ++ none :: tl.drop 1) = some ((done ++ [some t]) ++ none :: tl.drop 1) := by
        cases fuel <;> simp [tokeniseLoop]
      rw [this]
      simp
    | cons r rs =>
      rw [hr] at h1 h2 hmax hf
      have hsome : (strtok rest).1 = some r := h1
      have htail : maximalRuns (strtok rest).2 = rs := h2
      rw [hsome]
      have hlen : (done ++ [some t]).length = done.length + 1 := by simp
      have := ih (strtok rest).2 (done ++ [some t]) (tl.drop 1) r
        (by rw [htail, hlen]; simp only [List.length_cons] at hmax; omega)
        (by rw [htail]; simp only [List.length_cons] at hf; omega)
      rw [hlen, htail] at this
      rw [this]
      simp [List.drop_drop, Nat.add_comm, Nat.add_left_comm]

/-- The loop of `tokenise` returns: the fuel `MAX_NUM_TOKENS` covers the
iterations that the test `i >= MAX_NUM_TOKENS` allows. -/
theorem tokeniseLoop_total :
    ∀ (fuel i : Nat) (tk : Option (List Byte)) (rest : List Byte)
      (token : List (Option (List Byte))),
      i < MAX_NUM_TOKENS → MAX_NUM_TOKENS ≤ i + fuel →
      (tokeniseLoop fuel i tk rest token).isSome = true := by
  intro fuel
  induction fuel with
  | zero => intro i tk rest token h1 h2; omega
  | succ fuel ih =>
    intro i tk rest token h1 h2
    unfold tokeniseLoop
    by_cases htk : tk.isSome = true
    · rw [if_pos htk]
      by_cases hb : i + 1 ≥ MAX_NUM_TOKENS
      · rw [if_pos hb]; rfl
      · rw [if_neg hb]
        exact ih _ _ _ _ (by omega) (by omega)
    · rw [if_neg htk]; rfl

/-- The function `tokenise` returns on every line and token array. -/
theorem tokenise_total (line : List Byte) (token : List (Option (List Byte))) :
    (tokenise line token).isSome = true :=
  tokeniseLoop_total _ _ _ _ _ (by decide) (by decide)

/-- C16 (tokeniser). For every line whose maximal runs of characters other than
space, tab and newline are fewer than `MAX_NUM_TOKENS`, `tokenise` returns with
the token array holding exactly these runs, in their order in the line, in its
first entries, then a `NULL` entry; the entries after that are as they were. -/
theorem tokenise_runs (line : List Byte) (token : List (Option (List Byte)))
    (hfew : (maximalRuns (cstr line)).length < MAX_NUM_TOKENS) :
    tokenise line token =
      some ((maximalRuns (cstr line)).map some
        ++ none :: token.drop ((maximalRuns (cstr line)).length + 1)) := by
  obtain ⟨h1, h2⟩ := strtok_runs (cstr line)
  unfold tokenise
  cases hr : maximalRuns (cstr line) with
  | nil =>
    rw [hr] at h1
    have hnone : (strtok (cstr line)).1 = none := h1
    rw [hnone]
    simp [tokeniseLoop, MAX_NUM_TOKENS, setAt]
  | cons r rs =>
    rw [hr] at h1 h2 hfew
    have hsome : (strtok (cstr line)).1 = some r := h1
    have htail : maximalRuns (strtok (cstr line)).2 = rs := h2
    rw [hsome]
    have hset : setAt token 0 (some r) = [] ++ some r :: token.drop 1 := by simp [setAt]
    have := tokeniseLoop_runs MAX_NUM_TOKENS (strtok (cstr line)).2 [] (token.drop 1) r
      (by rw [htail]; simp only [List.length_cons, List.length_nil] at hfew ⊢; omega)
      (by rw [htail]; simp only [List.length_cons] at hfew; omega)
    rw [htail] at this
    rw [hset]
    simp only [List.length_nil] at this
    rw [this]
    simp [List.drop_drop, Nat.add_comm, Nat.add_left_comm]

/-- Witness of C16: the line "  get  a" followed by a tab, "b" and a newline. -/
theorem tokenise_runs_witness :
    (maximalRuns (cstr (lit "  get  a\tb\n"))).length < MAX_NUM_TOKENS ∧
    maximalRuns (cstr (lit "  get  a\tb\n")) = [lit "get", lit "a", lit "b"] ∧
    tokenise (lit "  get  a\tb\n") [none, none, none, none, some [1], some [2]] =
      some ((maximalRuns (cstr (lit "  get  a\tb\n"))).map some
        ++ none :: [none, none, none, none, some [1], some [2]].drop
            ((maximalRuns (cstr (lit "  get  a\tb\n"))).length + 1)) :=
  ⟨by decide, by decide,
   tokenise_runs (lit "  get  a\tb\n") [none, none, none, none, some [1], some [2]] (by decide)⟩

/-! ## The end of a transfer and the session loop -/

/-- C17 (short block ends the stream), evaluated on the code, in both
directions. Upload: the client's `sendFile` loop emits the file of 5119 bytes
as one frame; the server's receiving loop, run on that frame followed by the
frame of the next command `pwd`, does not stop after the file's frame: it
consumes both frames and writes both payloads. Download: the server's `getFile`
loop emits the file of 5118 bytes as one frame, a short block; the client's
receiving loop, run on that frame followed by the next response frame, consumes
both as well, because 5118 is not less than `BUFSIZE-2`. -/
theorem receiver_reads_past_final_block :
    (sendLoop (BUFSIZE - 1) oneBlockFile.length ⟨[], [], [], []⟩ oneBlockFile).map
        (fun fd => fd.out) = some (frame oneBlockFile) ∧
    (recvLoop ((frame oneBlockFile ++ (frame (lit "P" ++ [0]) ++ [])).length + 1)
        ⟨frame oneBlockFile ++ (frame (lit "P" ++ [0]) ++ []), [], [], []⟩ [] []).map
        (fun r => (r.1.inp, r.2)) = some ([], [] ++ oneBlockFile ++ (lit "P" ++ [0])) ∧
    (sendLoop BUFSIZE shortBlockFile.length ⟨[], [], [], []⟩ shortBlockFile).map
        (fun fd => fd.out) = some (frame shortBlockFile) ∧
    (recvLoop ((frame shortBlockFile ++ (frame (lit "/srv" ++ [0]) ++ [])).length + 1)
        ⟨frame shortBlockFile ++ (frame (lit "/srv" ++ [0]) ++ []), [], [], []⟩ [] []).map
        (fun r => (r.1.inp, r.2)) = some ([], [] ++ shortBlockFile ++ (lit "/srv" ++ [0])) := by
  have hlen1 : oneBlockFile.length = 5119 := by rw [oneBlockFile, List.length_replicate]
  have hlen2 : shortBlockFile.length = 5118 := by rw [shortBlockFile, List.length_replicate]
  have hnil : Healthy [] := by intro r hr; cases hr
  refine ⟨?_, ?_, ?_, ?_⟩
  · obtain ⟨ws, _, h⟩ := sendLoop_single (BUFSIZE - 1) oneBlockFile.length ⟨[], [], [], []⟩
      oneBlockFile (by rw [hlen1]; decide) (by rw [hlen1]; decide) (by rw [hlen1]; decide)
      (by rw [hlen1]; decide) hnil
    rw [h]; rfl
  · obtain ⟨rs, _, h⟩ := recvLoop_two
      ((frame oneBlockFile ++ (frame (lit "P" ++ [0]) ++ [])).length + 1)
      ⟨frame oneBlockFile ++ (frame (lit "P" ++ [0]) ++ []), [], [], []⟩ [] []
      oneBlockFile (lit "P" ++ [0]) [] rfl (by rw [hlen1]; decide) (by rw [hlen1]; decide)
      (by decide) (by decide) (by rw [List.length_append, frame_length]; omega) hnil
    rw [h]; rfl
  · obtain ⟨ws, _, h⟩ := sendLoop_single BUFSIZE shortBlockFile.length ⟨[], [], [], []⟩
      shortBlockFile (by rw [hlen2]; decide) (by rw [hlen2]; decide) (by rw [hlen2]; decide)
      (by rw [hlen2]; decide) hnil
    rw [h]; rfl
  · obtain ⟨rs, _, h⟩ := recvLoop_two
      ((frame shortBlockFile ++ (frame (lit "/srv" ++ [0]) ++ [])).length + 1)
      ⟨frame shortBlockFile ++ (frame (lit "/srv" ++ [0]) ++ []), [], [], []⟩ [] []
      shortBlockFile (lit "/srv" ++ [0]) [] rfl (by rw [hlen2]; decide) (by rw [hlen2]; decide)
      (by decide) (by decide) (by rw [List.length_append, frame_length]; omega) hnil
    rw [h]; rfl

end SimpleFTP
